import Mathlib

/-!
Verification of the runtime button/page state engine of a stream-deck
controller.  The Rust sources under `src/` are shallowly embedded below:
pure functions become Lean functions, `&mut self` methods become explicit
state passing (returning the produced value together with the new state),
`Result` becomes `Except`, and reachable panics are modelled with a
dedicated `panicked` constructor.  External collaborators (the regex
crate, the image decoder, the filesystem and the USB transport) are
abstracted: a compiled regex is modelled as its matching function, an
image file path is carried verbatim, and rendered faces are identified by
the resolved data they are deterministically composited from (the face
compositing pipeline itself produces a pixel buffer, which no claim
inspects).  Machine integers: `u8` casts are modelled with `% 256`
(release-mode wrapping), `u32` parsing checks the `2 ^ 32` bound explicitly.
-/

namespace StreamDeck

/-! ## Small list utilities (association lists model `HashMap`) -/

/-- In-place update of one list element, mirroring `vec[i] = f(vec[i])`. -/
def modify_at {α : Type} : List α → Nat → (α → α) → List α
  | [], _, _ => []
  | a :: l, 0, f => f a :: l
  | a :: l, n + 1, f => a :: modify_at l n f

/-- Lookup in an association list (model of `HashMap::get`). -/
def alist_find? {β : Type} (l : List (String × β)) (k : String) : Option β :=
  match l.find? (fun p => p.1 == k) with
  | some p => some p.2
  | none => none

/-- Model of `HashMap::contains_key`. -/
def alist_contains {β : Type} (l : List (String × β)) (k : String) : Bool :=
  (alist_find? l k).isSome

/-- Model of `HashMap::insert`: drop any binding of the key and bind it
to the new value (a `HashMap` iterates in arbitrary order; no claim
depends on the model's order, which keeps the latest insertion last). -/
def alist_insert {β : Type} (l : List (String × β)) (k : String) (v : β) :
    List (String × β) :=
  l.filter (fun p => p.1 != k) ++ [(k, v)]

/-! ## Colors — `src/config/color.rs`

Rust strings are modelled as lists of unicode scalar values.  The byte
slice `&hex[..1]` panics when the string is empty or when its first
character occupies more than one byte; `utf8_width` recovers the byte
width of a character. -/

/-- Number of bytes of the UTF-8 encoding of a character. -/
def utf8_width (c : Char) : Nat :=
  if c.val < 0x80 then 1
  else if c.val < 0x800 then 2
  else if c.val < 0x10000 then 3
  else 4

/-- An RGBA color value, each channel in `0 .. 255`. -/
structure Rgba where
  r : Nat
  g : Nat
  b : Nat
  a : Nat
  deriving DecidableEq, Repr

/-- `char::to_digit(c, 16)`: `0`–`9` (scalar values 48–57), `a`–`f`
(97–102) and `A`–`F` (65–70). -/
def to_digit_16 (c : Char) : Option Nat :=
  if 48 ≤ c.toNat ∧ c.toNat ≤ 57 then some (c.toNat - 48)
  else if 97 ≤ c.toNat ∧ c.toNat ≤ 102 then some (c.toNat - 97 + 10)
  else if 65 ≤ c.toNat ∧ c.toNat ≤ 70 then some (c.toNat - 65 + 10)
  else none

/-- One step of the checked accumulation of `u32::from_str_radix`. -/
def hex_acc_step (acc : Option Nat) (c : Char) : Option Nat :=
  match acc, to_digit_16 c with
  | some v, some d => if v * 16 + d < 2 ^ 32 then some (v * 16 + d) else none
  | _, _ => none

/-- `u32::from_str_radix(s, 16)`: an optional leading `+`, then at least
one base-16 digit, with the result bounded by `u32::MAX` (the checked
multiply/add of the standard library). -/
def from_str_radix_16 (s : List Char) : Option Nat :=
  match s with
  | [] => none
  | c :: rest =>
    let digits := if c = '+' then rest else c :: rest
    match digits with
    | [] => none
    | _ :: _ => digits.foldl hex_acc_step (some 0)

/-- Outcome of running fallible Rust code that may also panic. -/
inductive ColorResult where
  | panicked
  | invalid_hex
  | ok (c : Rgba)
  deriving DecidableEq, Repr

/-- `hex_string_to_rgba_color` from `src/config/color.rs`.  The source
first inspects the byte slice `&hex[..1]` (which panics on an empty
string and on a multi-byte first character), then strips every leading
`#` with `trim_start_matches`, parses the remainder as a base-16 `u32`
and finally dispatches on the remainder's length. -/
def hex_string_to_rgba_color (hex : List Char) : ColorResult :=
  match hex with
  | [] => .panicked
  | c :: _ =>
    if utf8_width c ≠ 1 then .panicked
    else if c ≠ '#' then .invalid_hex
    else
      let without_prefix := hex.dropWhile (fun x => x = '#')
      match from_str_radix_16 without_prefix with
      | none => .invalid_hex
      | some num =>
        if without_prefix.length = 6 then
          .ok ⟨num >>> 16 % 256, num >>> 8 % 256, num % 256, 255⟩
        else if without_prefix.length = 8 then
          .ok ⟨num >>> 24 % 256, num >>> 16 % 256, num >>> 8 % 256, num % 256⟩
        else .invalid_hex

/-- `ColorConfig` from `src/config/color.rs`. -/
inductive ColorConfig where
  | HEXString (s : List Char)
  | RGB (red green blue : Nat)
  deriving DecidableEq, Repr

/-- `ColorConfig::to_image_rgba_color`. -/
def ColorConfig.to_image_rgba_color : ColorConfig → ColorResult
  | .HEXString hex => hex_string_to_rgba_color hex
  | .RGB red green blue => .ok ⟨red, green, blue, 0xFF⟩

/-! ## Button positions — `src/state/button_position.rs` -/

/-- `PositionFromBorder`.  The payload is a `u8` in the source; values
are modelled as natural numbers and the `u8` additions of
`to_button_index` wrap modulo 256. -/
inductive PositionFromBorder where
  | FromStart (n : Nat)
  | FromEnd (n : Nat)
  deriving DecidableEq, Repr

/-- Truncating cast to `u8` of an `i32` value. -/
def u8_cast (i : Int) : Nat := (i % 256).toNat

/-- `PositionFromBorder::from_array_index`. -/
def PositionFromBorder.from_array_index (index : Int) : PositionFromBorder :=
  if index < 0 then .FromEnd (u8_cast (-index - 1))
  else .FromStart (u8_cast index)

/-- `ButtonPosition`. -/
structure ButtonPosition where
  col : PositionFromBorder
  row : PositionFromBorder
  deriving DecidableEq, Repr

/-- `ButtonPosition::from_config` on a `row`/`col` object. -/
def ButtonPosition.from_config (row col : Int) : ButtonPosition :=
  ⟨PositionFromBorder.from_array_index col, PositionFromBorder.from_array_index row⟩

/-- `ButtonPosition::to_button_index`.  `device_rows`/`device_cols` is the
device geometry (`StreamDeckType::num_buttons`, an external constant
supplied at construction).  The column axis is mirrored because the
hardware counts buttons from right to left, and both axes are clamped to
the valid range.  `(n + 1) % 256` mirrors the wrapping `u8` addition. -/
def ButtonPosition.to_button_index (p : ButtonPosition) (device_rows device_cols : Nat) : Nat :=
  let row : Int :=
    match p.row with
    | .FromStart r => (r : Int)
    | .FromEnd neg_row => (device_rows : Int) - (((neg_row + 1) % 256 : Nat) : Int)
  let col : Int :=
    match p.col with
    | .FromStart c => (device_cols : Int) - (((c + 1) % 256 : Nat) : Int)
    | .FromEnd neg_col => (neg_col : Int)
  let row := min ((device_rows : Int) - 1) (max 0 row)
  let col := min ((device_cols : Int) - 1) (max 0 col)
  (col + row * (device_cols : Int)).toNat

/-! ## Errors, handlers, labels, faces -/

/-- `Error` from `src/state/error.rs` (construction / runtime errors).
`ConfigError` wraps the configuration error (an invalid color hex
string; the `config::error` module itself is absent from `src/`, only its
uses remain, so the payload is left abstract). -/
inductive Error where
  | ConfigError
  | PageNotFound (name : String)
  | DuplicateNamedButton (name : String)
  deriving DecidableEq, Repr

/-- Result of running construction code that may return an error or
panic (named-button construction is `unwrap`ped in `AppState::from_config`). -/
inductive CRes (α : Type) where
  | panicked
  | err (e : Error)
  | ok (a : α)

/-- Sequencing of fallible construction steps (Rust's `?`, with panics
propagated). -/
def CRes.bind {α β : Type} : CRes α → (α → CRes β) → CRes β
  | .panicked, _ => .panicked
  | .err e, _ => .err e
  | .ok a, f => f a

instance : Monad CRes where
  pure := CRes.ok
  bind := CRes.bind

/-- `true` iff the construction produced a value. -/
def CRes.isOk {α : Type} : CRes α → Bool
  | .ok _ => true
  | _ => false

/-- `EventHandler` from `src/state/event_handler.rs`: the handler source
text forwarded to the script runner.  `EventHandlerConfig::AsFile` reads
the text from the filesystem (an external collaborator); the model
carries the source text directly, as in the `AsCode` variant. -/
structure EventHandler where
  script : String
  deriving DecidableEq, Repr

/-- `EventHandlerConfig` (`AsCode`; see `EventHandler`). -/
structure EventHandlerConfig where
  code : String
  deriving DecidableEq, Repr

/-- `EventHandler::from_config`. -/
def EventHandler.from_config (config : EventHandlerConfig) : EventHandler :=
  ⟨config.code⟩

/-- `LabelConfig` from `src/config/label.rs`. -/
inductive LabelConfig where
  | JustText (text : String)
  | WithColor (color : Option ColorConfig) (text : String)
  deriving DecidableEq, Repr

/-- `ColoredText` from `src/state/button_face.rs`. -/
structure ColoredText where
  color : Option Rgba
  text : String
  deriving DecidableEq, Repr

/-- `ColoredText::from_config`. -/
def ColoredText.from_config : LabelConfig → CRes ColoredText
  | .JustText text => .ok ⟨none, text⟩
  | .WithColor color text =>
    match color with
    | none => .ok ⟨none, text⟩
    | some c =>
      match c.to_image_rgba_color with
      | .panicked => .panicked
      | .invalid_hex => .err .ConfigError
      | .ok v => .ok ⟨some v, text⟩

/-- `ButtonFaceConfig` from `src/config/button_face.rs`. -/
structure ButtonFaceConfig where
  color : Option ColorConfig
  file : Option String
  label : Option LabelConfig
  sublabel : Option LabelConfig
  superlabel : Option LabelConfig
  deriving DecidableEq, Repr

/-- `DefaultsConfig` from `src/config/defaults.rs`. -/
structure DefaultsConfig where
  background_color : Option ColorConfig
  label_color : Option ColorConfig
  superlabel_color : Option ColorConfig
  sublabel_color : Option ColorConfig
  deriving DecidableEq, Repr

/-- `Defaults` from `src/state/defaults.rs`. -/
structure Defaults where
  background_color : Rgba
  label_color : Rgba
  superlabel_color : Rgba
  sublabel_color : Rgba
  deriving DecidableEq, Repr

/-- Resolve one optional configured color against its fallback. -/
def resolve_color (fallback : Rgba) : Option ColorConfig → CRes Rgba
  | none => .ok fallback
  | some c =>
    match c.to_image_rgba_color with
    | .panicked => .panicked
    | .invalid_hex => .err .ConfigError
    | .ok v => .ok v

/-- `Defaults::from_config` with its built-in fallback colors. -/
def Defaults.from_config (config : Option DefaultsConfig) : CRes Defaults :=
  match config with
  | none => .ok ⟨⟨0, 0, 0, 255⟩, ⟨255, 255, 255, 255⟩, ⟨255, 255, 0, 255⟩, ⟨0, 255, 255, 255⟩⟩
  | some c =>
    CRes.bind (resolve_color ⟨0, 0, 0, 255⟩ c.background_color) (fun background =>
    CRes.bind (resolve_color ⟨255, 255, 255, 255⟩ c.label_color) (fun label =>
    CRes.bind (resolve_color ⟨255, 255, 0, 255⟩ c.superlabel_color) (fun superlabel =>
    CRes.bind (resolve_color ⟨0, 255, 255, 255⟩ c.sublabel_color) (fun sublabel =>
    .ok ⟨background, label, superlabel, sublabel⟩))))

/-- `ButtonFace` from `src/state/button_face.rs`.  The rendered pixel
buffer is a pure, deterministic function of these fields together with
the defaults and the device dimensions (`draw_face`), so the model
identifies a rendered face with the resolved data it was composited
from; decoding of a background-image file is an external collaborator
and is not modelled. -/
structure ButtonFace where
  color : Option Rgba
  file : Option String
  label : Option ColoredText
  sublabel : Option ColoredText
  superlabel : Option ColoredText
  deriving DecidableEq, Repr

/-- `ButtonFace::from_config` (the fallible color resolutions; the
drawing step is the pure compositing abstracted above). -/
def ButtonFace.from_config (face_config : ButtonFaceConfig) : CRes ButtonFace :=
  CRes.bind
    (match face_config.color with
     | none => .ok none
     | some c =>
       match c.to_image_rgba_color with
       | .panicked => CRes.panicked
       | .invalid_hex => CRes.err .ConfigError
       | .ok v => .ok (some v))
    (fun color =>
  CRes.bind
    (match face_config.label with
     | none => .ok none
     | some l => (ColoredText.from_config l).bind (fun t => .ok (some t)))
    (fun label =>
  CRes.bind
    (match face_config.sublabel with
     | none => .ok none
     | some l => (ColoredText.from_config l).bind (fun t => .ok (some t)))
    (fun sublabel =>
  CRes.bind
    (match face_config.superlabel with
     | none => .ok none
     | some l => (ColoredText.from_config l).bind (fun t => .ok (some t)))
    (fun superlabel =>
  .ok ⟨color, face_config.file, label, sublabel, superlabel⟩))))

/-! ## Button setups and per-slot state — `src/state/button.rs` -/

/-- `ButtonConfigWithName` from `src/config/button.rs`. -/
structure ButtonConfigWithName where
  name : String
  up_face : Option ButtonFaceConfig
  down_face : Option ButtonFaceConfig
  up_handler : Option EventHandlerConfig
  down_handler : Option EventHandlerConfig
  deriving DecidableEq, Repr

/-- `ButtonConfigOptionalName` from `src/config/button.rs`. -/
structure ButtonConfigOptionalName where
  name : Option String
  up_face : Option ButtonFaceConfig
  down_face : Option ButtonFaceConfig
  up_handler : Option EventHandlerConfig
  down_handler : Option EventHandlerConfig
  deriving DecidableEq, Repr

/-- `ButtonOrButtonName` from `src/config/button.rs`. -/
inductive ButtonOrButtonName where
  | ButtonName (name : String)
  | Button (config : ButtonConfigOptionalName)
  deriving DecidableEq, Repr

/-- `ButtonSetup`: the reusable face/handler quadruple. -/
structure ButtonSetup where
  up_face : Option ButtonFace
  down_face : Option ButtonFace
  up_handler : Option EventHandler
  down_handler : Option EventHandler
  deriving DecidableEq, Repr

/-- Common body of `ButtonSetup::from_config_with_name` and
`ButtonSetup::from_optional_name_config` (the two sources are
field-for-field identical). -/
def ButtonSetup.from_parts (up_face down_face : Option ButtonFaceConfig)
    (up_handler down_handler : Option EventHandlerConfig) : CRes ButtonSetup :=
  CRes.bind
    (match up_face with
     | none => .ok none
     | some f => (ButtonFace.from_config f).bind (fun x => .ok (some x)))
    (fun uf =>
  CRes.bind
    (match down_face with
     | none => .ok none
     | some f => (ButtonFace.from_config f).bind (fun x => .ok (some x)))
    (fun df =>
  .ok ⟨uf, df, up_handler.map EventHandler.from_config,
    down_handler.map EventHandler.from_config⟩))

/-- `ButtonSetup::from_config_with_name`. -/
def ButtonSetup.from_config_with_name (config : ButtonConfigWithName) : CRes ButtonSetup :=
  ButtonSetup.from_parts config.up_face config.down_face config.up_handler config.down_handler

/-- `ButtonSetup::from_optional_name_config`. -/
def ButtonSetup.from_optional_name_config (config : ButtonConfigOptionalName) : CRes ButtonSetup :=
  ButtonSetup.from_parts config.up_face config.down_face config.up_handler config.down_handler

/-- `ButtonSetupOrName`: a slot occupant, either a registry reference or
an inline setup. -/
inductive ButtonSetupOrName where
  | name (s : String)
  | setup (s : ButtonSetup)
  deriving DecidableEq, Repr

/-- `PressState`. -/
inductive PressState where
  | Down
  | Up
  deriving DecidableEq, Repr

/-- `ButtonState`: occupant, press state and the last-rendered press
state (the dirty flag). -/
structure ButtonState where
  setup : ButtonSetupOrName
  press_state : PressState
  render_state : Option PressState
  deriving DecidableEq, Repr

/-- `ButtonState::empty`. -/
def ButtonState.empty : ButtonState :=
  ⟨.name "empty", .Up, none⟩

/-- `ButtonState::needs_rendering`. -/
def ButtonState.needs_rendering (b : ButtonState) : Bool :=
  match b.render_state with
  | some rs => rs ≠ b.press_state
  | none => true

/-- `ButtonState::get_setup`: resolve the occupant, through the registry
when it is a name. -/
def ButtonState.get_setup (b : ButtonState) (named_buttons : List (String × ButtonSetup)) :
    Option ButtonSetup :=
  match b.setup with
  | .name n => alist_find? named_buttons n
  | .setup s => some s

/-- `ButtonState::set_pressed`: press state to `Down`, then the resolved
setup's down handler. -/
def ButtonState.set_pressed (b : ButtonState) (named_buttons : List (String × ButtonSetup)) :
    Option EventHandler × ButtonState :=
  let b2 := { b with press_state := .Down }
  (match b2.get_setup named_buttons with
   | some s => s.down_handler
   | none => none, b2)

/-- `ButtonState::set_released`: press state to `Up`, then the resolved
setup's up handler. -/
def ButtonState.set_released (b : ButtonState) (named_buttons : List (String × ButtonSetup)) :
    Option EventHandler × ButtonState :=
  let b2 := { b with press_state := .Up }
  (match b2.get_setup named_buttons with
   | some s => s.up_handler
   | none => none, b2)

/-- Modelled from the spec: `ButtonState::set_button` is invoked by
`AppState::load_page` and `AppState::unload_page` but its definition is
missing from `src/` (only `set_setup`, the analogous method taking a
`ButtonSetupOrName`, is present).  Per the spec, loading a page
overwrites the slot's occupant with the named reference and forces the
render cache to absent. -/
def ButtonState.set_button (b : ButtonState) (name : String) : ButtonState :=
  { b with setup := .name name, render_state := none }

/-- `ButtonState::set_rendered_and_get_face_for_rendering`: when the
slot is dirty, mark the render cache with the current press state and
return the face to draw — the face matching the press state when it
exists, otherwise the opposite face; `none` when the occupant cannot be
resolved or has no face at all.  The render cache is written before the
occupant is resolved, exactly as in the source. -/
def ButtonState.set_rendered_and_get_face_for_rendering (b : ButtonState)
    (named_buttons : List (String × ButtonSetup)) : Option ButtonFace × ButtonState :=
  if b.needs_rendering then
    match ({ b with render_state := some b.press_state } : ButtonState).get_setup named_buttons with
    | none => (none, { b with render_state := some b.press_state })
    | some s =>
      (match b.press_state with
       | .Up =>
         match s.up_face with
         | none => s.down_face
         | some _ => s.up_face
       | .Down =>
         match s.down_face with
         | none => s.up_face
         | some _ => s.down_face, { b with render_state := some b.press_state })
  else (none, b)

/-! ## Foreground-window conditions — `src/state/foreground_window_condition.rs`

A compiled regex is an external collaborator; it is modelled by its
matching function on strings.  `ForegroundWindowCondition::from_config`
only compiles the three optional patterns, so the model's condition
carries the compiled matchers directly. -/

/-- `WindowInformation` from the foreground-window watcher. -/
structure WindowInformation where
  title : String
  executable : String
  class_name : String

/-- `ForegroundWindowCondition`: up to three compiled patterns. -/
structure ForegroundWindowCondition where
  title : Option (String → Bool)
  executable : Option (String → Bool)
  class_name : Option (String → Bool)

/-- `ForegroundWindowCondition::matches`: every present pattern must
match its field; a missing pattern always matches. -/
def ForegroundWindowCondition.matches (c : ForegroundWindowCondition)
    (window : WindowInformation) : Bool :=
  let title_matches :=
    match c.title with
    | some re => re window.title
    | none => true
  let exec_matches :=
    match c.executable with
    | some re => re window.executable
    | none => true
  let class_matches :=
    match c.class_name with
    | some re => re window.class_name
    | none => true
  title_matches && exec_matches && class_matches

/-! ## Pages — `src/state/page/` -/

/-- `PositionedButtonSetup` from `src/state/page/positioned_button_setup.rs`:
a slot position together with the registry name of its occupant. -/
structure PositionedButtonSetup where
  position : ButtonPosition
  button_name : String
  deriving DecidableEq, Repr

/-- `Page` from `src/state/page/mod.rs`. -/
structure Page where
  buttons : List PositionedButtonSetup
  on_foreground_window : List ForegroundWindowCondition
  unload_if_not_loaded : Bool

/-- `Page::get_button`: the first binding of the page that resolves to
the given flat slot index. -/
def Page.get_button (p : Page) (device_rows device_cols : Nat) (button_index : Nat) :
    Option PositionedButtonSetup :=
  p.buttons.find? (fun b => b.position.to_button_index device_rows device_cols == button_index)

/-- `PageLoadConditions` from `src/config/page.rs` (patterns already
compiled, see `ForegroundWindowCondition`). -/
structure PageLoadConditions where
  conditions : List ForegroundWindowCondition
  remove : Option Bool

/-- `PageButtonConfig` from `src/config/page.rs` (the position already
parsed into a `ButtonPosition`). -/
structure PageButtonConfig where
  position : ButtonPosition
  button : ButtonOrButtonName

/-- `PageConfig` from `src/config/page.rs`. -/
structure PageConfig where
  name : String
  on_app : Option PageLoadConditions
  buttons : List PageButtonConfig

/-- `PositionedButtonSetup::from_config_with_named_button`: a bare name
stays a reference; an inline setup is built and registered under its
explicit name, or under a name synthesized from the page name and the
resolved slot index. -/
def PositionedButtonSetup.from_config_with_named_button (page_name : String)
    (device_rows device_cols : Nat) (config : PageButtonConfig) :
    CRes (PositionedButtonSetup × Option (String × ButtonSetup)) :=
  match config.button with
  | .ButtonName button_name => .ok (⟨config.position, button_name⟩, none)
  | .Button setup_config =>
    let button_name :=
      match setup_config.name with
      | some n => n
      | none =>
        "page_" ++ page_name ++ "_button_" ++
          toString (config.position.to_button_index device_rows device_cols)
    (ButtonSetup.from_optional_name_config setup_config).bind fun setup =>
      .ok (⟨config.position, button_name⟩, some (button_name, setup))

/-- Loop body of `Page::from_config_with_named_buttons` over the page's
button entries (newly named buttons go through a per-page `HashMap`, so
a repeated name inside one page silently overwrites). -/
def Page.build_buttons (page_name : String) (device_rows device_cols : Nat) :
    List PageButtonConfig → List PositionedButtonSetup →
    List (String × ButtonSetup) →
    CRes (List PositionedButtonSetup × List (String × ButtonSetup))
  | [], buttons, named => .ok (buttons, named)
  | bc :: rest, buttons, named =>
    (PositionedButtonSetup.from_config_with_named_button page_name device_rows device_cols
        bc).bind
      fun r =>
        Page.build_buttons page_name device_rows device_cols rest (buttons ++ [r.1])
          (match r.2 with
           | some nb => alist_insert named nb.1 nb.2
           | none => named)

/-- `Page::from_config_with_named_buttons`. -/
def Page.from_config_with_named_buttons (device_rows device_cols : Nat)
    (config : PageConfig) : CRes (Page × List (String × ButtonSetup)) :=
  let unload_if_not_loaded :=
    match config.on_app with
    | some c => c.remove == some true
    | none => false
  let on_foreground_window :=
    match config.on_app with
    | some c => c.conditions
    | none => []
  (Page.build_buttons config.name device_rows device_cols config.buttons [] []).bind
    fun r => .ok (⟨r.1, on_foreground_window, unload_if_not_loaded⟩, r.2)

/-! ## The orchestrator — `src/state/app_state.rs` -/

/-- `Config` from `src/config/mod.rs`. -/
structure Config where
  defaults : Option DefaultsConfig
  buttons : Option (List ButtonConfigWithName)
  pages : List PageConfig
  default_pages : Option (List String)
  init_script : Option EventHandlerConfig

/-- `AppState`: registry of named buttons, registry of pages, the live
per-slot state array, the stack of loaded pages and the device geometry
(row/column count of the `StreamDeckType`). -/
structure AppState where
  defaults : Defaults
  named_buttons : List (String × ButtonSetup)
  pages : List (String × Page)
  buttons : List ButtonState
  loaded_pages : List String
  device_rows : Nat
  device_cols : Nat
  init_handler : Option EventHandler
  foreground_window : Option WindowInformation

/-- `AppState::on_button_pressed`: out-of-range slot indices are a
no-op returning nothing. -/
def AppState.on_button_pressed (s : AppState) (button_id : Nat) :
    Option EventHandler × AppState :=
  match s.buttons.get? button_id with
  | none => (none, s)
  | some b =>
    let r := b.set_pressed s.named_buttons
    (r.1, { s with buttons := s.buttons.set button_id r.2 })

/-- `AppState::on_button_released`. -/
def AppState.on_button_released (s : AppState) (button_id : Nat) :
    Option EventHandler × AppState :=
  match s.buttons.get? button_id with
  | none => (none, s)
  | some b =>
    let r := b.set_released s.named_buttons
    (r.1, { s with buttons := s.buttons.set button_id r.2 })

/-- Loop of `AppState::set_rendered_and_get_rendering_faces` over the
enumerated slots (`id as u8` truncates the index). -/
def render_loop (named_buttons : List (String × ButtonSetup)) :
    List ButtonState → Nat → List (Nat × ButtonFace) × List ButtonState
  | [], _ => ([], [])
  | b :: rest, id =>
    (match (b.set_rendered_and_get_face_for_rendering named_buttons).1 with
     | some face => (id % 256, face) :: (render_loop named_buttons rest (id + 1)).1
     | none => (render_loop named_buttons rest (id + 1)).1,
     (b.set_rendered_and_get_face_for_rendering named_buttons).2 ::
       (render_loop named_buttons rest (id + 1)).2)

/-- `AppState::set_rendered_and_get_rendering_faces`: flush the dirty
slots, returning the (slot index, face) pairs for the device sink. -/
def AppState.set_rendered_and_get_rendering_faces (s : AppState) :
    List (Nat × ButtonFace) × AppState :=
  ((render_loop s.named_buttons s.buttons 0).1,
    { s with buttons := (render_loop s.named_buttons s.buttons 0).2 })

/-- `AppState::load_page`: push the page onto the stack and overwrite
every slot it claims. -/
def AppState.load_page (s : AppState) (page_name : String) :
    Except Error Unit × AppState :=
  match alist_find? s.pages page_name with
  | none => (.error (.PageNotFound page_name), s)
  | some page =>
    (.ok (),
      { s with
        loaded_pages := s.loaded_pages ++ [page_name]
        buttons :=
          page.buttons.foldl
            (fun bs b =>
              modify_at bs (b.position.to_button_index s.device_rows s.device_cols)
                (fun st => st.set_button b.button_name))
            s.buttons })

/-- Inner replay of `AppState::unload_page` for one claimed slot: reset
the slot to `"empty"`, then let every remaining page of the stack that
claims the slot overwrite it in load order. -/
def replay_slot (pages : List (String × Page)) (stack : List String)
    (device_rows device_cols : Nat) (bs : List ButtonState) (i : Nat) :
    List ButtonState :=
  stack.foldl
    (fun bs2 stack_page_name =>
      match alist_find? pages stack_page_name with
      | some p =>
        match p.get_button device_rows device_cols i with
        | some b => modify_at bs2 i (fun st => st.set_button b.button_name)
        | none => bs2
      | none => bs2)
    (modify_at bs i (fun st => st.set_button "empty"))

/-- `AppState::unload_page`: remove every occurrence of the page from
the stack, then rebuild each slot the page claims from the remaining
stack. -/
def AppState.unload_page (s : AppState) (page_name : String) :
    Except Error Unit × AppState :=
  match alist_find? s.pages page_name with
  | none => (.error (.PageNotFound page_name), s)
  | some page =>
    (.ok (),
      { s with
        loaded_pages := s.loaded_pages.filter (fun i => i != page_name)
        buttons :=
          (List.range (s.device_rows * s.device_cols)).foldl
            (fun bs button_index =>
              if (page.get_button s.device_rows s.device_cols button_index).isSome then
                replay_slot s.pages (s.loaded_pages.filter (fun i => i != page_name))
                  s.device_rows s.device_cols bs button_index
              else bs)
            s.buttons })

/-- One pass of `AppState::on_foreground_window` over the page registry,
collecting, per condition occurrence, the page names to load and the
page names to unload. -/
def collect_pages (s : AppState) (window_info : WindowInformation) :
    List String × List String :=
  s.pages.foldl
    (fun acc np =>
      np.2.on_foreground_window.foldl
        (fun acc2 condition =>
          if condition.matches window_info then (acc2.1 ++ [np.1], acc2.2)
          else if np.2.unload_if_not_loaded && s.loaded_pages.contains np.1 then
            (acc2.1, acc2.2 ++ [np.1])
          else acc2)
        acc)
    ([], [])

/-- Apply `f` (a page load or unload) to each name in turn, stopping at
the first failure (Rust's `?` keeps the mutations made so far). -/
def run_pages (f : AppState → String → Except Error Unit × AppState) :
    AppState → List String → Except Error Unit × AppState
  | s, [] => (.ok (), s)
  | s, n :: rest =>
    match f s n with
    | (.ok _, s2) => run_pages f s2 rest
    | (.error e, s2) => (.error e, s2)

/-- `AppState::on_foreground_window`: record the window, then apply all
collected loads, then all collected unloads. -/
def AppState.on_foreground_window (s : AppState) (window_info : WindowInformation) :
    Except Error Unit × AppState :=
  match run_pages AppState.load_page { s with foreground_window := some window_info }
      (collect_pages s window_info).1 with
  | (.ok _, s2) => run_pages AppState.unload_page s2 (collect_pages s window_info).2
  | (.error e, s2) => (.error e, s2)

/-- Loop of `AppState::from_config` over the explicitly declared named
buttons: a name already in the registry is a `DuplicateNamedButton`
error; the setup construction itself is `unwrap`ped in the source, so
its failure is a panic. -/
def build_named_buttons :
    List ButtonConfigWithName → List (String × ButtonSetup) →
    CRes (List (String × ButtonSetup))
  | [], named => .ok named
  | bc :: rest, named =>
    if alist_contains named bc.name then .err (.DuplicateNamedButton bc.name)
    else
      match ButtonSetup.from_config_with_name bc with
      | .ok setup => build_named_buttons rest (alist_insert named bc.name setup)
      | _ => .panicked

/-- The face configuration of the synthesized `"empty"` button: a plain
`#000000` background and nothing else. -/
def empty_face_config : ButtonFaceConfig :=
  ⟨some (.HEXString ['#', '0', '0', '0', '0', '0', '0']), none, none, none, none⟩

/-- The button configuration of the synthesized `"empty"` button. -/
def empty_button_config : ButtonConfigWithName :=
  ⟨"empty", some empty_face_config, none, none, none⟩

/-- Merge the named buttons a page introduced into the global registry,
failing on any name already present. -/
def merge_named_buttons :
    List (String × ButtonSetup) → List (String × ButtonSetup) →
    CRes (List (String × ButtonSetup))
  | [], named => .ok named
  | nb :: rest, named =>
    if alist_contains named nb.1 then .err (.DuplicateNamedButton nb.1)
    else merge_named_buttons rest (alist_insert named nb.1 nb.2)

/-- Loop of `AppState::from_config` over the page configurations. -/
def build_pages (device_rows device_cols : Nat) :
    List PageConfig → List (String × Page) → List (String × ButtonSetup) →
    CRes (List (String × Page) × List (String × ButtonSetup))
  | [], pages, named => .ok (pages, named)
  | pc :: rest, pages, named =>
    (Page.from_config_with_named_buttons device_rows device_cols pc).bind fun r =>
      (merge_named_buttons r.2 named).bind fun named2 =>
        build_pages device_rows device_cols rest (alist_insert pages pc.name r.1) named2

/-- Closing loop of `AppState::from_config`: load each default page. -/
def load_default_pages : AppState → List String → CRes AppState
  | s, [] => .ok s
  | s, page_name :: rest =>
    match s.load_page page_name with
    | (.ok _, s2) => load_default_pages s2 rest
    | (.error e, _) => .err e

/-- `AppState::from_config`: resolve the defaults, build the named
button registry (rejecting duplicates), synthesize the `"empty"` button
unless that name is already taken, build the pages (merging the named
buttons they introduce, again rejecting duplicates), create one empty
slot per device button, and finally load the default pages. -/
def AppState.from_config (device_rows device_cols : Nat) (config : Config) :
    CRes AppState :=
  CRes.bind (Defaults.from_config config.defaults) (fun defaults =>
  CRes.bind
    (build_named_buttons
      (match config.buttons with
       | some l => l
       | none => [])
      [])
    (fun named0 =>
  CRes.bind
    (if alist_contains named0 "empty" then .ok named0
     else
       match ButtonSetup.from_config_with_name empty_button_config with
       | .ok setup => .ok (alist_insert named0 "empty" setup)
       | _ => CRes.panicked)
    (fun named1 =>
  CRes.bind (build_pages device_rows device_cols config.pages [] named1) (fun built =>
  load_default_pages
    { defaults := defaults
      named_buttons := built.2
      pages := built.1
      buttons := List.replicate (device_rows * device_cols) ButtonState.empty
      loaded_pages := []
      device_rows := device_rows
      device_cols := device_cols
      init_handler := config.init_script.map EventHandler.from_config
      foreground_window := none }
    (match config.default_pages with
     | some l => l
     | none => [])))))

/-! ## Declarative descriptions used by the theorems -/

/-- The setup names a page binds, in binding order: an explicit inline
name, or the synthesized `page_<name>_button_<index>` for an anonymous
inline setup; bare references introduce no name. -/
def page_inline_names (device_rows device_cols : Nat) (pc : PageConfig) : List String :=
  pc.buttons.filterMap fun bc =>
    match bc.button with
    | .ButtonName _ => none
    | .Button sc =>
      some
        (match sc.name with
         | some n => n
         | none =>
           "page_" ++ pc.name ++ "_button_" ++
             toString (bc.position.to_button_index device_rows device_cols))

/-- The names of the explicitly declared named buttons. -/
def explicit_names (config : Config) : List String :=
  let explicit : List ButtonConfigWithName :=
    match config.buttons with
    | some l => l
    | none => []
  explicit.map (fun bc => bc.name)

/-- A color configuration that resolves without error. -/
def color_ok : Option ColorConfig → Bool
  | none => true
  | some c =>
    match c.to_image_rgba_color with
    | .ok _ => true
    | _ => false

/-- A label configuration whose optional color resolves. -/
def label_ok : Option LabelConfig → Bool
  | none => true
  | some (.JustText _) => true
  | some (.WithColor c _) => color_ok c

/-- A face configuration all of whose colors resolve. -/
def face_ok : Option ButtonFaceConfig → Bool
  | none => true
  | some f => color_ok f.color && label_ok f.label && label_ok f.sublabel && label_ok f.superlabel

/-- Every color of the configuration resolves (defaults, explicit
buttons, inline page buttons): the construction-time failures that are
unrelated to the duplicate-name check. -/
def config_colors_ok (config : Config) : Bool :=
  let explicit : List ButtonConfigWithName :=
    match config.buttons with
    | some l => l
    | none => []
  (match config.defaults with
   | none => true
   | some d =>
     color_ok d.background_color && color_ok d.label_color &&
       color_ok d.superlabel_color && color_ok d.sublabel_color) &&
  explicit.all (fun bc => face_ok bc.up_face && face_ok bc.down_face) &&
  config.pages.all (fun pc =>
    pc.buttons.all (fun bc =>
      match bc.button with
      | .ButtonName _ => true
      | .Button sc => face_ok sc.up_face && face_ok sc.down_face))

/-- Every default page names a configured page. -/
def default_pages_exist (config : Config) : Bool :=
  let defaults : List String :=
    match config.default_pages with
    | some l => l
    | none => []
  defaults.all (fun n => (config.pages.map (fun pc => pc.name)).contains n)

/-- The duplicate-freedom the construction actually enforces: explicit
names pairwise distinct; every page-introduced name distinct from the
explicit names and from the reserved `"empty"`; the name sets introduced
by distinct pages pairwise disjoint.  (Two identical names inside one
page are not rejected: the per-page map silently keeps the last.) -/
def names_unique (device_rows device_cols : Nat) (config : Config) : Prop :=
  (explicit_names config).Nodup ∧
  (∀ pc ∈ config.pages, ∀ n ∈ page_inline_names device_rows device_cols pc,
    ¬n ∈ explicit_names config ∧ n ≠ "empty") ∧
  (config.pages.map (page_inline_names device_rows device_cols)).Pairwise
    (fun l1 l2 => ∀ n ∈ l1, ¬n ∈ l2)

/-- The freshness discipline the page loop enforces: each page's
introduced names must avoid the keys present so far, which then grow by
that page's names. -/
def pages_addable (device_rows device_cols : Nat) (taken : String → Prop) :
    List PageConfig → Prop
  | [] => True
  | pc :: rest =>
    (∀ n ∈ page_inline_names device_rows device_cols pc, ¬taken n) ∧
    pages_addable device_rows device_cols
      (fun n => taken n ∨ n ∈ page_inline_names device_rows device_cols pc) rest

/-- The `ButtonSetup` value of the synthesized `"empty"` button. -/
def empty_setup : ButtonSetup :=
  ⟨some ⟨some ⟨0, 0, 0, 255⟩, none, none, none, none⟩, none, none, none⟩

/-- The face a slot should show, as the spec words it: the face matching
the press state when present, else the other face; nothing when the
occupant does not resolve or the setup has no face. -/
def resolved_face (named_buttons : List (String × ButtonSetup)) (b : ButtonState) :
    Option ButtonFace :=
  match b.get_setup named_buttons with
  | none => none
  | some s =>
    match b.press_state with
    | .Up => s.up_face.or s.down_face
    | .Down => s.down_face.or s.up_face

/-- A load / unload command against the page stack. -/
inductive PageOp where
  | load (name : String)
  | unload (name : String)

/-- Apply one page operation, keeping only successful outcomes. -/
def AppState.apply_op (s : AppState) : PageOp → Option AppState
  | .load n =>
    match s.load_page n with
    | (.ok _, s2) => some s2
    | (.error _, _) => none
  | .unload n =>
    match s.unload_page n with
    | (.ok _, s2) => some s2
    | (.error _, _) => none

/-- Apply a sequence of page operations, all of which must succeed. -/
def AppState.apply_ops (s : AppState) : List PageOp → Option AppState
  | [] => some s
  | op :: rest =>
    match s.apply_op op with
    | some s2 => s2.apply_ops rest
    | none => none

/-- The state `AppState::from_config` assembles before loading the
default pages: every slot empty, no page loaded. -/
def AppState.fresh (defaults : Defaults) (named_buttons : List (String × ButtonSetup))
    (pages : List (String × Page)) (device_rows device_cols : Nat)
    (init_handler : Option EventHandler) : AppState :=
  { defaults := defaults
    named_buttons := named_buttons
    pages := pages
    buttons := List.replicate (device_rows * device_cols) ButtonState.empty
    loaded_pages := []
    device_rows := device_rows
    device_cols := device_cols
    init_handler := init_handler
    foreground_window := none }

/-- Whether the page registered under `n` claims slot `i`. -/
def page_claims (pages : List (String × Page)) (device_rows device_cols : Nat)
    (n : String) (i : Nat) : Bool :=
  match alist_find? pages n with
  | some p => (p.get_button device_rows device_cols i).isSome
  | none => false

/-- The most recently loaded page of the stack claiming slot `i`. -/
def last_claimer (pages : List (String × Page)) (device_rows device_cols : Nat)
    (i : Nat) : List String → Option String
  | [] => none
  | n :: rest =>
    match last_claimer pages device_rows device_cols i rest with
    | some m => some m
    | none => if page_claims pages device_rows device_cols n i then some n else none

/-- The occupant name the page registered under `n` binds to slot `i`
(its first binding resolving there). -/
def claimer_name (pages : List (String × Page)) (device_rows device_cols : Nat)
    (n : String) (i : Nat) : String :=
  match alist_find? pages n with
  | some p =>
    match p.get_button device_rows device_cols i with
    | some b => b.button_name
    | none => "empty"
  | none => "empty"

/-- The occupant slot `i` must hold under a given page stack: the
binding of the most recently loaded page claiming it, else `"empty"`. -/
def expected_occupant (pages : List (String × Page)) (device_rows device_cols : Nat)
    (stack : List String) (i : Nat) : String :=
  match last_claimer pages device_rows device_cols i stack with
  | some n => claimer_name pages device_rows device_cols n i
  | none => "empty"

/-- Any two bindings of one page resolving to the same slot bind the
same name (so "the name the page binds to that slot" is well defined). -/
def pages_consistent (pages : List (String × Page)) (device_rows device_cols : Nat) : Prop :=
  ∀ np ∈ pages, ∀ b1 ∈ np.2.buttons, ∀ b2 ∈ np.2.buttons,
    b1.position.to_button_index device_rows device_cols =
        b2.position.to_button_index device_rows device_cols →
      b1.button_name = b2.button_name

/-- The slot invariant: registry and geometry are those fixed at
construction, the slot array has one entry per device button, and every
slot's occupant is the name bound by the most recently loaded page
claiming it — `"empty"` when no loaded page claims it. -/
def slots_ok (pages : List (String × Page)) (device_rows device_cols : Nat)
    (s : AppState) : Prop :=
  s.pages = pages ∧ s.device_rows = device_rows ∧ s.device_cols = device_cols ∧
  s.buttons.length = device_rows * device_cols ∧
  ∀ i, i < device_rows * device_cols →
    (s.buttons.get? i).map ButtonState.setup =
      some (.name (expected_occupant pages device_rows device_cols s.loaded_pages i))

/-- The binding of a page that wins when the page is loaded: its last
binding resolving to slot `i`. -/
def last_hit (device_rows device_cols : Nat) (i : Nat) :
    List PositionedButtonSetup → Option PositionedButtonSetup
  | [] => none
  | b :: l =>
    match last_hit device_rows device_cols i l with
    | some x => some x
    | none => if b.position.to_button_index device_rows device_cols = i then some b else none

/-- The page names `on_foreground_window` loads, as the spec describes
them: one occurrence per condition of a registered page matching the
window. -/
def pages_to_load_spec (s : AppState) (w : WindowInformation) : List String :=
  s.pages.flatMap fun np =>
    np.2.on_foreground_window.filterMap fun c =>
      if c.matches w then some np.1 else none

/-- The page names `on_foreground_window` unloads: one occurrence per
non-matching condition of a flagged, currently loaded page. -/
def pages_to_unload_spec (s : AppState) (w : WindowInformation) : List String :=
  s.pages.flatMap fun np =>
    np.2.on_foreground_window.filterMap fun c =>
      if ¬c.matches w ∧ np.2.unload_if_not_loaded ∧ s.loaded_pages.contains np.1 then
        some np.1
      else none

/-- A base-16 digit. -/
def is_hex_digit (c : Char) : Bool :=
  (to_digit_16 c).isSome

/-- One step of the plain base-16 evaluation. -/
def hex_val_step (a : Nat) (c : Char) : Nat :=
  a * 16 + (to_digit_16 c).getD 0

/-- The numeric value of a base-16 digit string. -/
def hex_val (l : List Char) : Nat :=
  l.foldl hex_val_step 0

/-- The success region of hex color conversion, written from the
amended claim: one or more `#` characters, then a base-16 `u32` numeral
(hex digits, optionally preceded by a single `+`) whose length is 6
(alpha 255) or 8 (trailing byte is the alpha). -/
def hex_spec (l : List Char) : ColorResult :=
  let body := l.dropWhile (fun x => x = '#')
  let digits := if body.head? = some '+' then body.tail else body
  if (l.takeWhile (fun x => x = '#')).length ≥ 1 ∧ digits ≠ [] ∧ digits.all is_hex_digit then
    if body.length = 6 then
      .ok ⟨hex_val digits >>> 16 % 256, hex_val digits >>> 8 % 256, hex_val digits % 256, 255⟩
    else if body.length = 8 then
      .ok ⟨hex_val digits >>> 24 % 256, hex_val digits >>> 16 % 256, hex_val digits >>> 8 % 256,
        hex_val digits % 256⟩
    else .invalid_hex
  else .invalid_hex

/-! ## Concrete instances used by counterexamples and witnesses -/

/-- The built-in fallback defaults (no defaults configured). -/
def default_defaults : Defaults :=
  ⟨⟨0, 0, 0, 255⟩, ⟨255, 255, 255, 255⟩, ⟨255, 255, 0, 255⟩, ⟨0, 255, 255, 255⟩⟩

/-- Top-left position (row 0, col 0). -/
def pos00 : ButtonPosition := ⟨.FromStart 0, .FromStart 0⟩

/-- Row 0, col 1. -/
def pos01 : ButtonPosition := ⟨.FromStart 1, .FromStart 0⟩

/-- A face with a plain color, used by sample setups. -/
def sample_face : ButtonFace := ⟨some ⟨1, 2, 3, 255⟩, none, none, none, none⟩

/-- A sample registry setup with an up face and both handlers. -/
def sample_setup : ButtonSetup := ⟨some sample_face, none, some ⟨"up_h"⟩, some ⟨"down_h"⟩⟩

/-- A sample one-page registry: page `"p"` binds slot 0 to `"a"`. -/
def sample_page : Page := ⟨[⟨pos00, "a"⟩], [], false⟩

/-- A sample 1×1 state whose single slot is occupied by `"a"`. -/
def sample_state : AppState :=
  ⟨default_defaults, [("a", sample_setup)], [("p", sample_page)],
    [⟨.name "a", .Up, none⟩], [], 1, 1, none, none⟩

/-- A condition with no pattern at all — it matches every window. -/
def cond_always : ForegroundWindowCondition := ⟨none, none, none⟩

/-- A page with two always-matching conditions and no binding. -/
def twocond_page : Page := ⟨[], [cond_always, cond_always], false⟩

/-- A 1×1 state whose registry holds only `twocond_page` under `"p"`. -/
def twocond_state : AppState :=
  ⟨default_defaults, [], [("p", twocond_page)], [ButtonState.empty], [], 1, 1, none, none⟩

/-- An inline page button named `"x"` (down handler `h1`). -/
def inline_x1 : ButtonConfigOptionalName := ⟨some "x", none, none, none, some ⟨"h1"⟩⟩

/-- A second inline page button also named `"x"` (down handler `h2`). -/
def inline_x2 : ButtonConfigOptionalName := ⟨some "x", none, none, none, some ⟨"h2"⟩⟩

/-- A page declaring the two like-named inline buttons. -/
def dup_in_page : PageConfig := ⟨"pg", none, [⟨pos00, .Button inline_x1⟩, ⟨pos01, .Button inline_x2⟩]⟩

/-- A configuration whose only name clash is the pair of like-named
inline buttons inside a single page. -/
def dup_in_page_config : Config := ⟨none, none, [dup_in_page], none, none⟩

/-- A page declaring an inline button under the reserved name `"empty"`. -/
def inline_empty_page : PageConfig :=
  ⟨"pg", none, [⟨pos00, .Button ⟨some "empty", none, none, none, none⟩⟩]⟩

/-- A configuration whose only named button is the page-inline `"empty"`. -/
def inline_empty_config : Config := ⟨none, none, [inline_empty_page], none, none⟩

/-- The empty configuration: no defaults, no buttons, no pages. -/
def bare_config : Config := ⟨none, none, [], none, none⟩

/-- The name a single page-button entry introduces, if any: an inline
setup's explicit name, or the synthesized positional name; a bare
reference introduces none. -/
def inline_name (page_name : String) (device_rows device_cols : Nat)
    (bc : PageButtonConfig) : Option String :=
  match bc.button with
  | .ButtonName _ => none
  | .Button sc =>
    some
      (match sc.name with
       | some n => n
       | none =>
         "page_" ++ page_name ++ "_button_" ++
           toString (bc.position.to_button_index device_rows device_cols))

/-- All colors of a list of page-button entries resolve (the
page-buttons conjunct of `config_colors_ok`, for one page). -/
def page_buttons_colors_ok (bcs : List PageButtonConfig) : Bool :=
  bcs.all (fun bc =>
    match bc.button with
    | .ButtonName _ => true
    | .Button sc => face_ok sc.up_face && face_ok sc.down_face)

/-- The state `from_config` builds from the bare 1×1 configuration. -/
def bare_state : AppState :=
  ⟨default_defaults, [("empty", empty_setup)], [], [ButtonState.empty], [], 1, 1, none, none⟩

/-! # Theorems -/

/-! ## C10 — hex color parsing panics instead of erroring on some inputs -/

/-- C10: hex color parsing is not total: on the empty string, and on any
string whose first character occupies more than one byte (here `é`,
U+00E9, two bytes in UTF-8), the byte slice `&hex[..1]` panics before an
`InvalidColorHexString` error can be produced, and the panic propagates
through `ColorConfig::to_image_rgba_color`. -/
theorem c10_hex_parsing_panics :
    hex_string_to_rgba_color [] = .panicked ∧
    hex_string_to_rgba_color [Char.ofNat 233, '1'] = .panicked ∧
    ColorConfig.to_image_rgba_color (.HEXString []) = .panicked ∧
    ColorConfig.to_image_rgba_color (.HEXString [Char.ofNat 233, '1']) = .panicked := by
  refine ⟨rfl, ?_, rfl, ?_⟩ <;> decide

/-! ## C8 — hex color success region -/

/-- Once the checked accumulation has failed it stays failed. -/
theorem hex_fold_none (l : List Char) : l.foldl hex_acc_step none = none := by
  induction l with
  | nil => rfl
  | cons c rest ih => simpa [List.foldl, hex_acc_step] using ih

/-- A base-16 digit value is below 16. -/
theorem to_digit_16_lt (c : Char) (d : Nat) (h : to_digit_16 c = some d) : d < 16 := by
  unfold to_digit_16 at h
  split_ifs at h with h1 h2 h3 <;> simp only [Option.some.injEq] at h <;> omega

/-- The plain base-16 evaluation never decreases. -/
theorem hex_val_foldl_le (l : List Char) (a : Nat) : a ≤ l.foldl hex_val_step a := by
  induction l generalizing a with
  | nil => exact Nat.le_refl a
  | cons c rest ih =>
    calc a ≤ a * 16 + (to_digit_16 c).getD 0 := by omega
    _ ≤ rest.foldl hex_val_step (hex_val_step a c) := ih _

/-- On an all-digit string the checked accumulation agrees with the
plain evaluation, up to the `u32` bound. -/
theorem hex_fold_all (l : List Char) (a : Nat) (h : l.all is_hex_digit = true)
    (ha : a < 2 ^ 32) :
    l.foldl hex_acc_step (some a) =
      if l.foldl hex_val_step a < 2 ^ 32 then some (l.foldl hex_val_step a) else none := by
  induction l generalizing a with
  | nil =>
    simp only [List.foldl]
    rw [if_pos ha]
  | cons c rest ih =>
    simp only [List.all_cons, Bool.and_eq_true] at h
    obtain ⟨hd, hval⟩ : ∃ d, to_digit_16 c = some d := by
      rcases hx : to_digit_16 c with _ | d
      · simp [is_hex_digit, hx] at h
      · exact ⟨d, rfl⟩
    simp only [List.foldl]
    rw [show hex_acc_step (some a) c =
        if a * 16 + hd < 2 ^ 32 then some (a * 16 + hd) else none by
      simp [hex_acc_step, hval]]
    rw [show hex_val_step a c = a * 16 + hd by simp [hex_val_step, hval]]
    by_cases hlt : a * 16 + hd < 2 ^ 32
    · rw [if_pos hlt]
      exact ih _ h.2 hlt
    · rw [if_neg hlt, hex_fold_none]
      have := hex_val_foldl_le rest (a * 16 + hd)
      rw [if_neg (by omega)]

/-- A non-digit makes the checked accumulation fail. -/
theorem hex_fold_bad (l : List Char) (a : Nat) (h : l.all is_hex_digit = false) :
    l.foldl hex_acc_step (some a) = none := by
  induction l generalizing a with
  | nil => simp at h
  | cons c rest ih =>
    simp only [List.all_cons, Bool.and_eq_false_iff] at h
    rcases h with h | h
    · have hx : to_digit_16 c = none := by
        rcases hx : to_digit_16 c with _ | d
        · rfl
        · simp [is_hex_digit, hx] at h
      simp [List.foldl, hex_acc_step, hx, hex_fold_none]
    · simp only [List.foldl]
      rcases hstep : hex_acc_step (some a) c with _ | v
      · exact hex_fold_none rest
      · exact ih v h

/-- Bound for the plain evaluation of an all-digit string. -/
theorem hex_val_foldl_lt (l : List Char) (a : Nat) (h : l.all is_hex_digit = true) :
    l.foldl hex_val_step a < (a + 1) * 16 ^ l.length := by
  induction l generalizing a with
  | nil => simp
  | cons c rest ih =>
    simp only [List.all_cons, Bool.and_eq_true] at h
    obtain ⟨hd, hval⟩ : ∃ d, to_digit_16 c = some d := by
      rcases hx : to_digit_16 c with _ | d
      · simp [is_hex_digit, hx] at h
      · exact ⟨d, rfl⟩
    have hdlt : hd < 16 := to_digit_16_lt c hd hval
    simp only [List.foldl, List.length_cons]
    calc rest.foldl hex_val_step (hex_val_step a c)
        < (hex_val_step a c + 1) * 16 ^ rest.length := ih _ h.2
    _ ≤ ((a + 1) * 16) * 16 ^ rest.length := by
        apply Nat.mul_le_mul_right
        simp only [hex_val_step, hval, Option.getD_some]
        omega
    _ = (a + 1) * 16 ^ (rest.length + 1) := by ring

/-- Characterization of `u32::from_str_radix(s, 16)`: after dropping an
optional leading `+`, a nonempty all-digit string evaluates to its
base-16 value when that is below `2 ^ 32`; everything else fails. -/
theorem from_str_radix_16_eq (s : List Char) :
    from_str_radix_16 s =
      (let digits := if s.head? = some '+' then s.tail else s
       if digits ≠ [] ∧ digits.all is_hex_digit ∧ hex_val digits < 2 ^ 32 then
         some (hex_val digits)
       else none) := by
  cases s with
  | nil => simp [from_str_radix_16]
  | cons c rest =>
    simp only [from_str_radix_16, List.head?_cons, List.tail_cons, Option.some.injEq]
    by_cases hc : c = '+'
    · rw [if_pos hc]
      cases rest with
      | nil => simp
      | cons d rest2 =>
        simp only [ne_eq, reduceCtorEq, not_false_eq_true, true_and]
        by_cases hall : (d :: rest2).all is_hex_digit
        · rw [hex_fold_all _ 0 hall (by norm_num)]
          simp only [hall, true_and]
          rfl
        · rw [hex_fold_bad _ 0 (by simpa using hall)]
          simp [hall]
    · rw [if_neg hc]
      simp only [ne_eq, reduceCtorEq, not_false_eq_true, true_and]
      by_cases hall : (c :: rest).all is_hex_digit
      · rw [hex_fold_all _ 0 hall (by norm_num)]
        simp only [hall, true_and]
        rfl
      · rw [hex_fold_bad _ 0 (by simpa using hall)]
        simp [hall]

/-- C8 counterexample: `"##123456"` is not `'#'` followed by 6 or 8 hex
digits (it is `'#'` followed by the 7 characters `#123456`), so by the
claim it should yield `InvalidColorHexString`; the code strips every
leading `#` and converts it successfully to opaque `(18, 52, 86)`. -/
theorem c8_counterexample :
    hex_string_to_rgba_color ['#', '#', '1', '2', '3', '4', '5', '6'] =
      .ok ⟨18, 52, 86, 255⟩ := by
  decide

/-- C8 (amended): on every input whose first character exists and is a
single-byte character (the inputs on which the function does not panic),
hex conversion succeeds exactly when the string is one or more `#`
characters followed by a base-16 `u32` numeral (hex digits, optionally
preceded by a single `+`) of length 6 — alpha 255 — or length 8 — the
last byte is the alpha; every other such input yields
`InvalidColorHexString`.  `hex_spec` states that success region
declaratively. -/
theorem c8_hex_success_region (l : List Char) (c : Char)
    (hhead : l.head? = some c) (hw : utf8_width c = 1) :
    hex_string_to_rgba_color l = hex_spec l := by
  cases l with
  | nil => simp at hhead
  | cons c0 rest =>
    simp only [List.head?_cons, Option.some.injEq] at hhead
    subst hhead
    simp only [hex_string_to_rgba_color, hex_spec]
    rw [if_neg (by simp [hw])]
    by_cases hc : c0 = '#'
    · subst hc
      rw [if_neg (by simp)]
      have hdrop : (('#' :: rest).dropWhile (fun x => x = '#')) =
          rest.dropWhile (fun x => x = '#') := by
        simp [List.dropWhile_cons]
      have htake : (('#' :: rest).takeWhile (fun x => x = '#')) =
          '#' :: rest.takeWhile (fun x => x = '#') := by
        simp [List.takeWhile_cons]
      rw [hdrop, htake]
      rw [from_str_radix_16_eq (rest.dropWhile (fun x => x = '#'))]
      simp only [List.length_cons, ge_iff_le, le_add_iff_nonneg_left, zero_le, true_and]
      set L := rest.dropWhile (fun x => x = '#') with hL
      set D := if L.head? = some '+' then L.tail else L with hD
      have hDlen : D.length ≤ L.length := by
        rw [hD]
        split
        · simp [List.length_tail]
        · exact Nat.le_refl _
      by_cases hDok : D ≠ [] ∧ D.all is_hex_digit = true
      · by_cases h6 : L.length = 6
        · have hvlt : hex_val D < 2 ^ 32 := by
            calc hex_val D < (0 + 1) * 16 ^ D.length := hex_val_foldl_lt D 0 hDok.2
            _ ≤ 1 * 16 ^ 6 := by
                apply Nat.mul_le_mul_left
                exact Nat.pow_le_pow_right (by norm_num) (by omega)
            _ < 2 ^ 32 := by norm_num
          rw [if_pos ⟨hDok.1, hDok.2, hvlt⟩, if_pos hDok]
        · by_cases h8 : L.length = 8
          · have hvlt : hex_val D < 2 ^ 32 := by
              calc hex_val D < (0 + 1) * 16 ^ D.length := hex_val_foldl_lt D 0 hDok.2
              _ ≤ 1 * 16 ^ 8 := by
                  apply Nat.mul_le_mul_left
                  exact Nat.pow_le_pow_right (by norm_num) (by omega)
              _ = 2 ^ 32 := by norm_num
            rw [if_pos ⟨hDok.1, hDok.2, hvlt⟩, if_pos hDok]
          · by_cases hcond : D ≠ [] ∧ D.all is_hex_digit = true ∧ hex_val D < 2 ^ 32
            · rw [if_pos hcond, if_pos hDok]
            · rw [if_neg hcond, if_pos hDok]
              simp [h6, h8]
      · rw [if_neg (by tauto), if_neg hDok]
    · rw [if_pos hc]
      have htake : ((c0 :: rest).takeWhile (fun x => x = '#')) = [] := by
        simp [List.takeWhile_cons, hc]
      rw [htake]
      rw [if_neg (by simp)]

/-! ## C7 — flat index resolution -/

/-- The clamped flat index is always in range. -/
theorem clamped_index_lt (rows cols : Nat) (hr : 0 < rows) (hc : 0 < cols) (x y : Int) :
    (min ((cols : Int) - 1) (max 0 y) + min ((rows : Int) - 1) (max 0 x) * (cols : Int)).toNat <
      rows * cols := by
  set a := min ((cols : Int) - 1) (max 0 y) with ha
  set b := min ((rows : Int) - 1) (max 0 x) with hb
  have ha0 : 0 ≤ a := le_min (by omega) (le_max_left 0 y)
  have ha1 : a ≤ (cols : Int) - 1 := min_le_left _ _
  have hb0 : 0 ≤ b := le_min (by omega) (le_max_left 0 x)
  have hb1 : b ≤ (rows : Int) - 1 := min_le_left _ _
  have hmul : b * (cols : Int) ≤ ((rows : Int) - 1) * cols :=
    mul_le_mul_of_nonneg_right hb1 (by omega)
  have hexp : ((rows : Int) - 1) * cols = (rows : Int) * cols - cols := by ring
  have hN : ((rows * cols : Nat) : Int) = (rows : Int) * cols := by push_cast; ring
  have hcpos : (1 : Int) ≤ (cols : Int) := by exact_mod_cast hc
  have hlt : a + b * (cols : Int) < ((rows * cols : Nat) : Int) := by
    rw [hN]
    linarith
  have hv0 : 0 ≤ a + b * (cols : Int) := add_nonneg ha0 (mul_nonneg hb0 (by positivity))
  have hgoal : (((a + b * (cols : Int)).toNat : Int)) < ((rows * cols : Nat) : Int) := by
    rw [Int.toNat_of_nonneg hv0]
    exact hlt
  exact_mod_cast hgoal

/-- C7: position resolution.  For every geometry with at least one row
and one column: every position resolves to a flat index below
`rows * cols`; an in-range from-start position lands on its row with the
column axis mirrored; position `(row 0, col −1)` resolves to flat index
0 and position `(row −1, col 0)` to the last flat index. -/
theorem c7_to_button_index (rows cols : Nat) (hr : 0 < rows) (hc : 0 < cols) :
    (∀ p : ButtonPosition, p.to_button_index rows cols < rows * cols) ∧
    (∀ r c : Nat, r < rows → c < cols → c + 1 < 256 →
      (ButtonPosition.mk (.FromStart c) (.FromStart r)).to_button_index rows cols =
        r * cols + (cols - 1 - c)) ∧
    (ButtonPosition.from_config 0 (-1)).to_button_index rows cols = 0 ∧
    (ButtonPosition.from_config (-1) 0).to_button_index rows cols = rows * cols - 1 := by
  refine ⟨?_, ?_, ?_, ?_⟩
  · intro p
    unfold ButtonPosition.to_button_index
    exact clamped_index_lt rows cols hr hc _ _
  · intro r c hrr hcc hc255
    unfold ButtonPosition.to_button_index
    simp only
    rw [show ((c + 1) % 256 : Nat) = c + 1 from Nat.mod_eq_of_lt hc255]
    have h1 : min ((rows : Int) - 1) (max 0 (r : Int)) = (r : Int) := by omega
    have h2 : min ((cols : Int) - 1) (max 0 ((cols : Int) - ((c + 1 : Nat) : Int))) =
        (cols : Int) - (c : Int) - 1 := by push_cast; omega
    rw [h1, h2]
    have hcast : ((r * cols + (cols - 1 - c) : Nat) : Int) =
        (cols : Int) - c - 1 + (r : Int) * cols := by
      push_cast
      have e1 : ((cols - 1 - c : Nat) : Int) = (cols : Int) - 1 - c := by omega
      rw [e1]
      ring
    rw [← hcast, Int.toNat_natCast]
  · unfold ButtonPosition.from_config PositionFromBorder.from_array_index
      ButtonPosition.to_button_index u8_cast
    norm_num
    have h1 : ((cols : Int) - 1) ⊓ 0 = 0 := by omega
    have h2 : ((rows : Int) - 1) ⊓ 0 = 0 := by omega
    rw [h1, h2]
    simp
  · unfold ButtonPosition.from_config PositionFromBorder.from_array_index
      ButtonPosition.to_button_index u8_cast
    norm_num
    have hNpos : 1 ≤ rows * cols := Nat.mul_pos hr hc
    have hcast : ((rows * cols - 1 : Nat) : Int) = (cols : Int) - 1 + ((rows : Int) - 1) * cols := by
      push_cast [Nat.cast_sub hNpos]
      ring
    rw [← hcast, Int.toNat_natCast]

/-- Witness for C7 on the 3 × 5 geometry of the original device. -/
theorem c7_to_button_index_witness :
    (0 : Nat) < 3 ∧ (0 : Nat) < 5 ∧
    (∀ p : ButtonPosition, p.to_button_index 3 5 < 15) ∧
    (ButtonPosition.mk (.FromStart 2) (.FromStart 1)).to_button_index 3 5 = 1 * 5 + 2 ∧
    (ButtonPosition.from_config 0 (-1)).to_button_index 3 5 = 0 ∧
    (ButtonPosition.from_config (-1) 0).to_button_index 3 5 = 14 := by
  have h := c7_to_button_index 3 5 (by decide) (by decide)
  exact ⟨by decide, by decide, fun p => h.1 p,
    h.2.1 1 2 (by decide) (by decide) (by decide), h.2.2.1, h.2.2.2⟩

/-- Witness for C8 on the concrete input `"#00FF00"`. -/
theorem c8_hex_success_region_witness :
    (['#', '0', '0', 'F', 'F', '0', '0'] : List Char).head? = some '#' ∧
    utf8_width '#' = 1 ∧
    hex_string_to_rgba_color ['#', '0', '0', 'F', 'F', '0', '0'] =
      hex_spec ['#', '0', '0', 'F', 'F', '0', '0'] :=
  ⟨rfl, by decide, c8_hex_success_region ['#', '0', '0', 'F', 'F', '0', '0'] '#' rfl (by decide)⟩

/-! ## C6 — unknown page names: `PageNotFound`, state untouched -/

/-- C6: `load_page` and `unload_page` on a name absent from the page
registry return `PageNotFound` with that name and leave the state
exactly as it was (the error is raised before any mutation). -/
theorem c6_page_not_found (s : AppState) (name : String)
    (h : alist_find? s.pages name = none) :
    s.load_page name = (.error (.PageNotFound name), s) ∧
    s.unload_page name = (.error (.PageNotFound name), s) := by
  unfold AppState.load_page AppState.unload_page
  rw [h]
  exact ⟨rfl, rfl⟩

/-- Witness for C6 at a concrete state and name. -/
theorem c6_page_not_found_witness :
    alist_find? sample_state.pages "nope" = none ∧
    sample_state.load_page "nope" = (.error (.PageNotFound "nope"), sample_state) ∧
    sample_state.unload_page "nope" = (.error (.PageNotFound "nope"), sample_state) := by
  have h : alist_find? sample_state.pages "nope" = none := rfl
  exact ⟨h, (c6_page_not_found sample_state "nope" h).1, (c6_page_not_found sample_state "nope" h).2⟩

/-! ## C3 — press / release events -/

/-- C3: for an in-range slot, pressing sets the slot's press state to
`Down`, leaves occupant and render cache alone, and returns the
down-handler of the occupant as resolved through the registry at call
time (nothing when the setup has none or the name is unknown); releasing
is symmetric with `Up`; an out-of-range slot leaves the state unchanged
and returns nothing. -/
theorem c3_press_release (s : AppState) (i : Nat) :
    (∀ b, s.buttons.get? i = some b →
      s.on_button_pressed i =
        ((match b.get_setup s.named_buttons with
          | some st => st.down_handler
          | none => none),
         { s with buttons := s.buttons.set i { b with press_state := .Down } }) ∧
      s.on_button_released i =
        ((match b.get_setup s.named_buttons with
          | some st => st.up_handler
          | none => none),
         { s with buttons := s.buttons.set i { b with press_state := .Up } })) ∧
    (s.buttons.get? i = none →
      s.buttons.length ≤ i ∧
      s.on_button_pressed i = (none, s) ∧ s.on_button_released i = (none, s)) := by
  constructor
  · intro b hb
    unfold AppState.on_button_pressed AppState.on_button_released
    rw [hb]
    exact ⟨rfl, rfl⟩
  · intro hnone
    refine ⟨List.get?_eq_none.mp hnone, ?_, ?_⟩
    · unfold AppState.on_button_pressed
      rw [hnone]
    · unfold AppState.on_button_released
      rw [hnone]

/-- Witness for C3: slot 0 of the sample state is occupied by `"a"`
whose setup has both handlers; slot 5 is out of range. -/
theorem c3_press_release_witness :
    sample_state.buttons.get? 0 = some ⟨.name "a", .Up, none⟩ ∧
    sample_state.on_button_pressed 0 =
      (some ⟨"down_h"⟩,
        { sample_state with buttons := [⟨.name "a", .Down, none⟩] }) ∧
    sample_state.buttons.get? 5 = none ∧
    sample_state.on_button_pressed 5 = (none, sample_state) := by
  refine ⟨rfl, ?_, rfl, ?_⟩
  · exact ((c3_press_release sample_state 0).1 ⟨.name "a", .Up, none⟩ rfl).1
  · exact ((c3_press_release sample_state 5).2 rfl).2.1

/-! ## C2 — the dirty-face flush -/

/-- The face a dirty slot flushes is the spec-side `resolved_face`. -/
theorem set_rendered_face_eq (b : ButtonState) (named : List (String × ButtonSetup)) :
    (b.set_rendered_and_get_face_for_rendering named).1 =
      if b.needs_rendering then resolved_face named b else none := by
  unfold ButtonState.set_rendered_and_get_face_for_rendering resolved_face
  by_cases hn : b.needs_rendering
  · rw [if_pos hn, if_pos hn]
    rcases hs : ({ b with render_state := some b.press_state } : ButtonState).get_setup named
      with _ | st
    · have hb : b.get_setup named = none := hs
      rw [hb]
    · have hb : b.get_setup named = some st := hs
      rw [hb]
      cases b.press_state with
      | Up => rcases hu : st.up_face with _ | f <;> simp [hu, Option.or]
      | Down => rcases hd : st.down_face with _ | f <;> simp [hd, Option.or]
  · rw [if_neg hn, if_neg hn]

/-- The state a flushed slot is left in: only the render cache moves. -/
theorem set_rendered_state_eq (b : ButtonState) (named : List (String × ButtonSetup)) :
    (b.set_rendered_and_get_face_for_rendering named).2 =
      if b.needs_rendering then { b with render_state := some b.press_state } else b := by
  unfold ButtonState.set_rendered_and_get_face_for_rendering
  by_cases hn : b.needs_rendering
  · rw [if_pos hn, if_pos hn]
    rcases hs : ({ b with render_state := some b.press_state } : ButtonState).get_setup named
      with _ | st
    · rfl
    · cases b.press_state with
      | Up => cases st.up_face <;> rfl
      | Down => cases st.down_face <;> rfl
  · rw [if_neg hn, if_neg hn]

/-- The second component of the render loop, slot by slot. -/
theorem render_loop_state (named : List (String × ButtonSetup)) (bs : List ButtonState)
    (id : Nat) :
    (render_loop named bs id).2 =
      bs.map (fun b =>
        if b.needs_rendering then { b with render_state := some b.press_state } else b) := by
  induction bs generalizing id with
  | nil => rfl
  | cons b rest ih =>
    unfold render_loop
    dsimp only
    rw [List.map_cons, set_rendered_state_eq b named, ih (id + 1)]

/-- The first component of the render loop: one pair per dirty slot
with a resolvable face, tagged with its index. -/
theorem render_loop_faces (named : List (String × ButtonSetup)) (bs : List ButtonState)
    (id : Nat) (h : id + bs.length ≤ 256) :
    (render_loop named bs id).1 =
      (List.enumFrom id bs).filterMap (fun p =>
        if p.2.needs_rendering then (resolved_face named p.2).map (fun f => (p.1, f))
        else none) := by
  induction bs generalizing id with
  | nil => rfl
  | cons b rest ih =>
    unfold render_loop
    dsimp only [List.enumFrom]
    rw [List.filterMap_cons]
    have hid : id % 256 = id := Nat.mod_eq_of_lt (by simp at h; omega)
    have hrest := ih (id + 1) (by simp at h ⊢; omega)
    rw [set_rendered_face_eq b named]
    by_cases hn : b.needs_rendering
    · rw [if_pos hn, if_pos hn]
      rcases hf : resolved_face named b with _ | f
      · simpa using hrest
      · rw [hid, hrest]
        rfl
    · rw [if_neg hn, if_neg hn]
      simpa using hrest

/-- After a flush no slot is dirty. -/
theorem render_loop_clean (named : List (String × ButtonSetup)) (bs : List ButtonState)
    (id : Nat) (h : ∀ b ∈ bs, b.needs_rendering = false) :
    (render_loop named bs id).1 = [] := by
  induction bs generalizing id with
  | nil => rfl
  | cons b rest ih =>
    unfold render_loop
    dsimp only
    rw [set_rendered_face_eq b named, h b (by simp)]
    simpa using ih (id + 1) (fun x hx => h x (by simp [hx]))

/-- C2: the dirty-face flush returns exactly one `(index, face)` pair
for each slot that is dirty (render cache absent or different from the
press state) and whose occupant resolves to a setup with at least one
face — the press-matching face if present, else the other one; it sets
every dirty slot's render cache to its press state and touches nothing
else (no press state, no occupant); consequently an immediate second
flush returns the empty list.  The `≤ 256` bound keeps the `u8` slot
index of the returned pairs faithful (every real device has at most 32
slots). -/
theorem c2_flush_dirty_faces (s : AppState) (h : s.buttons.length ≤ 256) :
    (s.set_rendered_and_get_rendering_faces).1 =
      s.buttons.enum.filterMap (fun p =>
        if p.2.needs_rendering then (resolved_face s.named_buttons p.2).map (fun f => (p.1, f))
        else none) ∧
    (s.set_rendered_and_get_rendering_faces).2 =
      { s with buttons := s.buttons.map (fun b =>
          if b.needs_rendering then { b with render_state := some b.press_state } else b) } ∧
    ((s.set_rendered_and_get_rendering_faces).2.set_rendered_and_get_rendering_faces).1 = [] := by
  refine ⟨?_, ?_, ?_⟩
  · unfold AppState.set_rendered_and_get_rendering_faces
    exact render_loop_faces s.named_buttons s.buttons 0 (by omega)
  · unfold AppState.set_rendered_and_get_rendering_faces
    rw [render_loop_state]
  · unfold AppState.set_rendered_and_get_rendering_faces
    simp only
    rw [render_loop_state]
    apply render_loop_clean
    intro b hb
    simp only [List.mem_map] at hb
    obtain ⟨b0, _, hb0⟩ := hb
    by_cases hn : b0.needs_rendering
    · rw [if_pos hn] at hb0
      subst hb0
      simp [ButtonState.needs_rendering]
    · rw [if_neg hn] at hb0
      subst hb0
      exact Bool.not_eq_true _ ▸ (by simpa using hn)

/-- Witness for C2 on the sample state (one dirty slot showing
`sample_face`). -/
theorem c2_flush_dirty_faces_witness :
    sample_state.buttons.length ≤ 256 ∧
    ((sample_state.set_rendered_and_get_rendering_faces).1 =
        sample_state.buttons.enum.filterMap (fun p =>
          if p.2.needs_rendering then
            (resolved_face sample_state.named_buttons p.2).map (fun f => (p.1, f))
          else none) ∧
      (sample_state.set_rendered_and_get_rendering_faces).2 =
        { sample_state with buttons := sample_state.buttons.map (fun b =>
            if b.needs_rendering then { b with render_state := some b.press_state } else b) } ∧
      ((sample_state.set_rendered_and_get_rendering_faces).2.set_rendered_and_get_rendering_faces).1 =
        []) :=
  ⟨by decide, c2_flush_dirty_faces sample_state (by decide)⟩

/-! ## C5 — foreground-window handling -/

/-- A key that appears in an association list is found. -/
theorem alist_find?_isSome_of_mem_fst {β : Type} (l : List (String × β)) (n : String)
    (h : n ∈ l.map Prod.fst) : (alist_find? l n).isSome := by
  induction l with
  | nil => simp at h
  | cons hd tl ih =>
    unfold alist_find?
    simp only [List.find?]
    by_cases he : hd.1 == n
    · rw [he]
      rfl
    · have he2 : (hd.1 == n) = false := by simpa using he
      rw [he2]
      have hmem : n ∈ tl.map Prod.fst := by
        simp only [List.map_cons, List.mem_cons] at h
        rcases h with h | h
        · exact absurd (by simp [h]) he
        · exact h
      have h2 := ih hmem
      unfold alist_find? at h2
      exact h2

/-- Per-condition unfolding of the collection loop of
`on_foreground_window`, for one page. -/
theorem collect_conditions_eq (s : AppState) (w : WindowInformation) (np : String × Page)
    (conds : List ForegroundWindowCondition) (acc : List String × List String) :
    conds.foldl
      (fun acc2 condition =>
        if condition.matches w then (acc2.1 ++ [np.1], acc2.2)
        else if np.2.unload_if_not_loaded && s.loaded_pages.contains np.1 then
          (acc2.1, acc2.2 ++ [np.1])
        else acc2)
      acc =
    (acc.1 ++ conds.filterMap (fun c => if c.matches w then some np.1 else none),
     acc.2 ++ conds.filterMap (fun c =>
       if ¬c.matches w ∧ np.2.unload_if_not_loaded ∧ s.loaded_pages.contains np.1 then
         some np.1
       else none)) := by
  induction conds generalizing acc with
  | nil => simp
  | cons c rest ih =>
    simp only [List.foldl_cons, List.filterMap_cons]
    by_cases hm : c.matches w
    · rw [if_pos hm, ih]
      simp [hm]
    · by_cases hu : np.2.unload_if_not_loaded && s.loaded_pages.contains np.1
      · rw [if_neg hm, if_pos hu, ih]
        rw [Bool.and_eq_true] at hu
        have hmem : np.1 ∈ s.loaded_pages := by simpa using hu.2
        simp [hm, hu.1, hmem]
      · rw [if_neg hm, if_neg hu, ih]
        have hnu : ¬(np.2.unload_if_not_loaded = true ∧ np.1 ∈ s.loaded_pages) := by
          simpa using hu
        simp [hm, hnu]

/-- Unfolding of the full collection pass. -/
theorem collect_pages_fold (s : AppState) (w : WindowInformation)
    (pl : List (String × Page)) (acc : List String × List String) :
    pl.foldl
      (fun acc np =>
        np.2.on_foreground_window.foldl
          (fun acc2 condition =>
            if condition.matches w then (acc2.1 ++ [np.1], acc2.2)
            else if np.2.unload_if_not_loaded && s.loaded_pages.contains np.1 then
              (acc2.1, acc2.2 ++ [np.1])
            else acc2)
          acc)
      acc =
    (acc.1 ++ pl.flatMap (fun np =>
      np.2.on_foreground_window.filterMap (fun c => if c.matches w then some np.1 else none)),
     acc.2 ++ pl.flatMap (fun np =>
      np.2.on_foreground_window.filterMap (fun c =>
        if ¬c.matches w ∧ np.2.unload_if_not_loaded ∧ s.loaded_pages.contains np.1 then
          some np.1
        else none))) := by
  induction pl generalizing acc with
  | nil => simp
  | cons np rest ih =>
    simp only [List.foldl_cons, List.flatMap_cons]
    rw [collect_conditions_eq, ih]
    simp [List.append_assoc]

/-- The single collection pass computes exactly the two spec-side
lists. -/
theorem collect_pages_eq (s : AppState) (w : WindowInformation) :
    collect_pages s w = (pages_to_load_spec s w, pages_to_unload_spec s w) := by
  unfold collect_pages pages_to_load_spec pages_to_unload_spec
  rw [collect_pages_fold]
  simp

/-- `load_page` never touches the page registry. -/
theorem load_page_pages (s : AppState) (n : String) : ((s.load_page n).2).pages = s.pages := by
  unfold AppState.load_page
  rcases alist_find? s.pages n with _ | p <;> rfl

/-- `unload_page` never touches the page registry. -/
theorem unload_page_pages (s : AppState) (n : String) :
    ((s.unload_page n).2).pages = s.pages := by
  unfold AppState.unload_page
  rcases alist_find? s.pages n with _ | p <;> rfl

/-- Loading a registered page succeeds. -/
theorem load_page_ok (s : AppState) (n : String) (h : (alist_find? s.pages n).isSome) :
    (s.load_page n).1 = .ok () := by
  unfold AppState.load_page
  rcases hf : alist_find? s.pages n with _ | p
  · rw [hf] at h
    simp at h
  · rfl

/-- Unloading a registered page succeeds. -/
theorem unload_page_ok (s : AppState) (n : String) (h : (alist_find? s.pages n).isSome) :
    (s.unload_page n).1 = .ok () := by
  unfold AppState.unload_page
  rcases hf : alist_find? s.pages n with _ | p
  · rw [hf] at h
    simp at h
  · rfl

/-- Running loads over registered names succeeds and keeps the
registry. -/
theorem run_pages_load_ok (names : List String) (s : AppState)
    (h : ∀ n ∈ names, (alist_find? s.pages n).isSome) :
    (run_pages AppState.load_page s names).1 = .ok () ∧
    (run_pages AppState.load_page s names).2.pages = s.pages := by
  induction names generalizing s with
  | nil => exact ⟨rfl, rfl⟩
  | cons n rest ih =>
    unfold run_pages
    rcases hr : s.load_page n with ⟨res, s2⟩
    have hok : res = .ok () := by
      have := load_page_ok s n (h n (by simp))
      rw [hr] at this
      exact this
    subst hok
    have hp : s2.pages = s.pages := by
      have := load_page_pages s n
      rw [hr] at this
      exact this
    have := ih s2 (fun m hm => hp ▸ h m (by simp [hm]))
    exact ⟨this.1, this.2.trans hp⟩

/-- Running unloads over registered names succeeds and keeps the
registry. -/
theorem run_pages_unload_ok (names : List String) (s : AppState)
    (h : ∀ n ∈ names, (alist_find? s.pages n).isSome) :
    (run_pages AppState.unload_page s names).1 = .ok () ∧
    (run_pages AppState.unload_page s names).2.pages = s.pages := by
  induction names generalizing s with
  | nil => exact ⟨rfl, rfl⟩
  | cons n rest ih =>
    unfold run_pages
    rcases hr : s.unload_page n with ⟨res, s2⟩
    have hok : res = .ok () := by
      have := unload_page_ok s n (h n (by simp))
      rw [hr] at this
      exact this
    subst hok
    have hp : s2.pages = s.pages := by
      have := unload_page_pages s n
      rw [hr] at this
      exact this
    have := ih s2 (fun m hm => hp ▸ h m (by simp [hm]))
    exact ⟨this.1, this.2.trans hp⟩

/-- Every name collected for loading names a registered page. -/
theorem pages_to_load_spec_mem (s : AppState) (w : WindowInformation) (n : String)
    (h : n ∈ pages_to_load_spec s w) : (alist_find? s.pages n).isSome := by
  unfold pages_to_load_spec at h
  simp only [List.mem_flatMap, List.mem_filterMap] at h
  obtain ⟨np, hnp, c, _, hc⟩ := h
  have hn : n = np.1 := by
    by_cases hm : c.matches w
    · rw [if_pos hm] at hc
      exact (Option.some.injEq _ _ ▸ hc).symm
    · rw [if_neg hm] at hc
      cases hc
  subst hn
  exact alist_find?_isSome_of_mem_fst s.pages np.1 (List.mem_map_of_mem Prod.fst hnp)

/-- Every name collected for unloading names a registered page. -/
theorem pages_to_unload_spec_mem (s : AppState) (w : WindowInformation) (n : String)
    (h : n ∈ pages_to_unload_spec s w) : (alist_find? s.pages n).isSome := by
  unfold pages_to_unload_spec at h
  simp only [List.mem_flatMap, List.mem_filterMap] at h
  obtain ⟨np, hnp, c, _, hc⟩ := h
  have hn : n = np.1 := by
    split at hc
    · exact (Option.some.injEq _ _ ▸ hc).symm
    · cases hc
  subst hn
  exact alist_find?_isSome_of_mem_fst s.pages np.1 (List.mem_map_of_mem Prod.fst hnp)

/-- C5 (amended): `on_foreground_window` collects, per registered page
and per condition occurrence (not per page), the pages to load — one
occurrence for each condition matching the window — and the pages to
unload — one occurrence for each non-matching condition of a flagged,
currently loaded page; it records the window, applies every collected
load, then applies every collected unload, and never fails. -/
theorem c5_on_foreground_window (s : AppState) (w : WindowInformation) :
    collect_pages s w = (pages_to_load_spec s w, pages_to_unload_spec s w) ∧
    (s.on_foreground_window w).1 = .ok () ∧
    (s.on_foreground_window w).2 =
      (run_pages AppState.unload_page
        ((run_pages AppState.load_page { s with foreground_window := some w }
            (pages_to_load_spec s w)).2)
        (pages_to_unload_spec s w)).2 := by
  refine ⟨collect_pages_eq s w, ?_, ?_⟩ <;>
  · unfold AppState.on_foreground_window
    rw [collect_pages_eq s w]
    have hs1 : ({ s with foreground_window := some w } : AppState).pages = s.pages := rfl
    have hload := run_pages_load_ok (pages_to_load_spec s w)
      { s with foreground_window := some w }
      (fun n hn => by rw [hs1]; exact pages_to_load_spec_mem s w n hn)
    rcases hrun : run_pages AppState.load_page { s with foreground_window := some w }
        (pages_to_load_spec s w) with ⟨res, s2⟩
    rw [hrun] at hload
    obtain ⟨hok, hpg⟩ := hload
    simp only at hok hpg
    subst hok
    have hunload := run_pages_unload_ok (pages_to_unload_spec s w) s2
      (fun n hn => by rw [hpg, hs1]; exact pages_to_unload_spec_mem s w n hn)
    simp [hunload.1]

/-- C5 counterexample: in a 1 × 1 state whose registry holds one page
`"p"` with two always-matching conditions, a single window event loads
`"p"` twice — the loaded-page stack ends as `["p", "p"]`, not `["p"]` as
"loads each matching page exactly once" would give. -/
theorem c5_counterexample :
    (twocond_state.on_foreground_window ⟨"", "", ""⟩).2.loaded_pages = ["p", "p"] := rfl

/-! ## C1 — the page-stack / slot-occupant invariant -/

/-- `modify_at` preserves the length. -/
theorem modify_at_length {α : Type} (l : List α) (i : Nat) (f : α → α) :
    (modify_at l i f).length = l.length := by
  induction l generalizing i with
  | nil => rfl
  | cons a rest ih =>
    cases i with
    | zero => rfl
    | succ j => simpa [modify_at] using ih j

/-- Reading the modified position. -/
theorem get?_modify_at_self {α : Type} (l : List α) (i : Nat) (f : α → α) :
    (modify_at l i f).get? i = (l.get? i).map f := by
  induction l generalizing i with
  | nil => cases i <;> rfl
  | cons a rest ih =>
    cases i with
    | zero => rfl
    | succ j => simpa [modify_at] using ih j

/-- Reading any other position. -/
theorem get?_modify_at_ne {α : Type} (l : List α) (i j : Nat) (f : α → α) (h : i ≠ j) :
    (modify_at l i f).get? j = l.get? j := by
  induction l generalizing i j with
  | nil => cases i <;> rfl
  | cons a rest ih =>
    cases i with
    | zero =>
      cases j with
      | zero => exact absurd rfl h
      | succ j2 => rfl
    | succ i2 =>
      cases j with
      | zero => rfl
      | succ j2 => simpa [modify_at] using ih i2 j2 (by omega)

/-- Two modifications at the same position compose. -/
theorem modify_at_modify_at {α : Type} (l : List α) (i : Nat) (f g : α → α) :
    modify_at (modify_at l i f) i g = modify_at l i (fun x => g (f x)) := by
  induction l generalizing i with
  | nil => rfl
  | cons a rest ih =>
    cases i with
    | zero => rfl
    | succ j => simpa [modify_at] using ih j

/-- The second occupant overwrite wins. -/
theorem ButtonState.set_button_set_button (st : ButtonState) (a b : String) :
    (st.set_button a).set_button b = st.set_button b := rfl

/-- Any fold of per-element length-preserving steps preserves length. -/
theorem foldl_length_preserved {γ : Type} (l : List γ)
    (step : List ButtonState → γ → List ButtonState)
    (h : ∀ bs x, (step bs x).length = bs.length) (bs : List ButtonState) :
    (l.foldl step bs).length = bs.length := by
  induction l generalizing bs with
  | nil => rfl
  | cons x rest ih => simpa [h] using ih (step bs x)

/-- What the loading fold leaves in each slot: the page's last binding
resolving there, applied to the old state, or the old state. -/
theorem load_fold_get? (r c : Nat) (l : List PositionedButtonSetup)
    (bs : List ButtonState) (i : Nat) :
    (l.foldl
      (fun bs b =>
        modify_at bs (b.position.to_button_index r c) (fun st => st.set_button b.button_name))
      bs).get? i =
    match last_hit r c i l with
    | some b => (bs.get? i).map (fun st => st.set_button b.button_name)
    | none => bs.get? i := by
  induction l generalizing bs with
  | nil => rfl
  | cons b rest ih =>
    simp only [List.foldl_cons, last_hit]
    rw [ih]
    rcases last_hit r c i rest with _ | x
    · by_cases hidx : b.position.to_button_index r c = i
      · rw [if_pos hidx, hidx, get?_modify_at_self]
      · rw [if_neg hidx, get?_modify_at_ne _ _ _ _ hidx]
    · by_cases hidx : b.position.to_button_index r c = i
      · rw [hidx, get?_modify_at_self]
        rcases bs.get? i with _ | st <;> rfl
      · rw [get?_modify_at_ne _ _ _ _ hidx]

/-- A found last hit is a binding of the page resolving to the slot. -/
theorem last_hit_mem (r c i : Nat) (l : List PositionedButtonSetup)
    (b : PositionedButtonSetup) (h : last_hit r c i l = some b) :
    b ∈ l ∧ b.position.to_button_index r c = i := by
  induction l with
  | nil => cases h
  | cons x rest ih =>
    rw [last_hit] at h
    rcases hr : last_hit r c i rest with _ | y
    · rw [hr] at h
      by_cases hidx : x.position.to_button_index r c = i
      · rw [if_pos hidx] at h
        cases h
        exact ⟨by simp, hidx⟩
      · rw [if_neg hidx] at h
        cases h
    · rw [hr] at h
      cases h
      have := ih hr
      exact ⟨by simp [this.1], this.2⟩

/-- The last hit exists exactly when `get_button` finds a binding. -/
theorem last_hit_isSome (r c i : Nat) (l : List PositionedButtonSetup) :
    (last_hit r c i l).isSome =
      (l.find? (fun b => b.position.to_button_index r c == i)).isSome := by
  induction l with
  | nil => rfl
  | cons b rest ih =>
    rw [last_hit]
    simp only [List.find?]
    by_cases hidx : b.position.to_button_index r c = i
    · have hb : (b.position.to_button_index r c == i) = true := by simpa using hidx
      rw [hb]
      rcases last_hit r c i rest with _ | x
      · rw [if_pos hidx]
      · rfl
    · have hb : (b.position.to_button_index r c == i) = false := by simpa using hidx
      rw [hb]
      rcases hlh : last_hit r c i rest with _ | x
      · rw [if_neg hidx]
        rw [hlh] at ih
        exact ih
      · rw [hlh] at ih
        exact ih

/-- The replay of one slot collapses to a single in-place update with
the folded occupant name. -/
theorem replay_fold_general (pages : List (String × Page)) (r c i : Nat)
    (stack : List String) (bs : List ButtonState) (name0 : String) :
    stack.foldl
      (fun bs2 stack_page_name =>
        match alist_find? pages stack_page_name with
        | some p =>
          match p.get_button r c i with
          | some b => modify_at bs2 i (fun st => st.set_button b.button_name)
          | none => bs2
        | none => bs2)
      (modify_at bs i (fun st => st.set_button name0)) =
    modify_at bs i (fun st => st.set_button
      (stack.foldl
        (fun acc n =>
          match alist_find? pages n with
          | some p =>
            match p.get_button r c i with
            | some b => b.button_name
            | none => acc
          | none => acc)
        name0)) := by
  induction stack generalizing name0 with
  | nil => rfl
  | cons n rest ih =>
    simp only [List.foldl_cons]
    rcases hp : alist_find? pages n with _ | p
    · dsimp only
      exact ih name0
    · dsimp only
      rcases hg : p.get_button r c i with _ | b
      · dsimp only
        exact ih name0
      · dsimp only
        rw [modify_at_modify_at]
        simp only [ButtonState.set_button_set_button]
        exact ih b.button_name

/-- `replay_slot`, slot by slot. -/
theorem replay_slot_eq (pages : List (String × Page)) (stack : List String) (r c : Nat)
    (bs : List ButtonState) (i : Nat) :
    replay_slot pages stack r c bs i =
      modify_at bs i (fun st => st.set_button
        (stack.foldl
          (fun acc n =>
            match alist_find? pages n with
            | some p =>
              match p.get_button r c i with
              | some b => b.button_name
              | none => acc
            | none => acc)
          "empty")) := by
  unfold replay_slot
  exact replay_fold_general pages r c i stack bs "empty"

/-- A fold over `range N` of guarded in-place updates, read slot by
slot. -/
theorem range_modify_fold_get? (N : Nat) (P : Nat → Bool)
    (f : Nat → ButtonState → ButtonState) (bs : List ButtonState) (i : Nat) :
    (((List.range N).foldl (fun bs j => if P j then modify_at bs j (f j) else bs) bs)).get? i =
      if i < N ∧ P i then (bs.get? i).map (f i) else bs.get? i := by
  induction N generalizing bs with
  | zero =>
    rw [show List.range 0 = [] from rfl]
    simp
  | succ N ih =>
    rw [List.range_succ, List.foldl_append]
    simp only [List.foldl_cons, List.foldl_nil]
    by_cases hiN : i = N
    · subst hiN
      by_cases hP : P i
      · rw [if_pos hP, get?_modify_at_self, ih, if_neg (by omega), if_pos ⟨by omega, hP⟩]
      · rw [if_neg hP, ih, if_neg (by tauto), if_neg (by tauto)]
    · have hstep :
          (if P N then modify_at
              ((List.range N).foldl (fun bs j => if P j then modify_at bs j (f j) else bs) bs) N
              (f N)
            else
              (List.range N).foldl (fun bs j => if P j then modify_at bs j (f j) else bs)
                bs).get? i =
          ((List.range N).foldl (fun bs j => if P j then modify_at bs j (f j) else bs)
            bs).get? i := by
        by_cases hP : P N
        · rw [if_pos hP, get?_modify_at_ne _ _ _ _ (by omega)]
        · rw [if_neg hP]
      rw [hstep, ih]
      by_cases hPi : P i
      · by_cases hlt : i < N
        · rw [if_pos ⟨hlt, hPi⟩, if_pos ⟨by omega, hPi⟩]
        · rw [if_neg (by tauto), if_neg (fun hk => hlt (by omega))]
      · rw [if_neg (by tauto), if_neg (by tauto)]

/-- The accumulator fold over the stack computes the most recent
claimer's binding (or keeps the accumulator). -/
theorem stack_fold_claimer (pages : List (String × Page)) (r c i : Nat)
    (stack : List String) (acc : String) :
    stack.foldl
      (fun acc n =>
        match alist_find? pages n with
        | some p =>
          match p.get_button r c i with
          | some b => b.button_name
          | none => acc
        | none => acc)
      acc =
    match last_claimer pages r c i stack with
    | some n => claimer_name pages r c n i
    | none => acc := by
  induction stack generalizing acc with
  | nil => rfl
  | cons n rest ih =>
    simp only [List.foldl_cons, last_claimer]
    rw [ih]
    rcases last_claimer pages r c i rest with _ | m
    · rcases hp : alist_find? pages n with _ | p
      · simp [page_claims, claimer_name, hp]
      · rcases hg : p.get_button r c i with _ | b
        · simp [page_claims, claimer_name, hp, hg]
        · simp [page_claims, claimer_name, hp, hg]
    · rfl

/-- Removing a page that does not claim the slot from the stack keeps
the most recent claimer. -/
theorem last_claimer_filter (pages : List (String × Page)) (r c i : Nat)
    (stack : List String) (nm : String) (hnc : page_claims pages r c nm i = false) :
    last_claimer pages r c i (stack.filter (fun x => x != nm)) =
      last_claimer pages r c i stack := by
  induction stack with
  | nil => rfl
  | cons n rest ih =>
    by_cases hn : n = nm
    · subst hn
      rw [show (n :: rest).filter (fun x => x != n) = rest.filter (fun x => x != n) from by
        simp [List.filter]]
      rw [ih, last_claimer]
      rcases last_claimer pages r c i rest with _ | m
      · rw [hnc]
        simp
      · rfl
    · have h2 : (n != nm) = true := by simpa using hn
      rw [show (n :: rest).filter (fun x => x != nm) =
          n :: rest.filter (fun x => x != nm) from by simp [List.filter, h2]]
      rw [last_claimer, last_claimer, ih]

/-- Pushing a page onto the stack: it becomes the most recent claimer
of every slot it claims and changes nothing else. -/
theorem last_claimer_append (pages : List (String × Page)) (r c i : Nat)
    (stack : List String) (n : String) :
    last_claimer pages r c i (stack ++ [n]) =
      if page_claims pages r c n i then some n else last_claimer pages r c i stack := by
  induction stack with
  | nil => rfl
  | cons m rest ih =>
    simp only [List.cons_append, last_claimer, List.append_eq]
    rw [ih]
    by_cases hc : page_claims pages r c n i
    · rw [if_pos hc, if_pos hc]
    · rw [if_neg hc, if_neg hc]

/-- A successful registry lookup comes from an entry of the list. -/
theorem alist_find?_mem {β : Type} (l : List (String × β)) (k : String) (v : β)
    (h : alist_find? l k = some v) : ∃ p ∈ l, p.1 = k ∧ p.2 = v := by
  induction l with
  | nil => cases h
  | cons hd tl ih =>
    unfold alist_find? at h
    simp only [List.find?] at h
    by_cases he : hd.1 == k
    · rw [he] at h
      refine ⟨hd, by simp, by simpa using he, ?_⟩
      cases h
      rfl
    · have he2 : (hd.1 == k) = false := by simpa using he
      rw [he2] at h
      have h2 : alist_find? tl k = some v := by
        unfold alist_find?
        exact h
      obtain ⟨p, hp, hk, hv⟩ := ih h2
      exact ⟨p, by simp [hp], hk, hv⟩

/-- Reading a replicated list in range. -/
theorem get?_replicate {α : Type} (a : α) (n i : Nat) (h : i < n) :
    (List.replicate n a).get? i = some a := by
  induction n generalizing i with
  | zero => omega
  | succ m ih =>
    cases i with
    | zero => rfl
    | succ j => simpa [List.replicate] using ih j (by omega)

/-- The freshly constructed state satisfies the slot invariant. -/
theorem fresh_slots_ok (defaults : Defaults) (named : List (String × ButtonSetup))
    (pages : List (String × Page)) (r c : Nat) (init : Option EventHandler) :
    slots_ok pages r c (AppState.fresh defaults named pages r c init) := by
  refine ⟨rfl, rfl, rfl, by simp [AppState.fresh], ?_⟩
  intro i hi
  show ((List.replicate (r * c) ButtonState.empty).get? i).map ButtonState.setup = _
  rw [get?_replicate _ _ _ hi]
  rfl

/-- Loading a page preserves the slot invariant. -/
theorem load_page_slots_ok (pages : List (String × Page)) (r c : Nat)
    (hcons : pages_consistent pages r c) (s s2 : AppState) (n : String)
    (hs : slots_ok pages r c s) (h : s.apply_op (.load n) = some s2) :
    slots_ok pages r c s2 := by
  obtain ⟨hpg, hr, hc, hlen, hinv⟩ := hs
  unfold AppState.apply_op AppState.load_page at h
  dsimp only at h
  rcases hf : alist_find? s.pages n with _ | page
  · rw [hf] at h
    cases h
  · rw [hf] at h
    dsimp only at h
    injection h with h2
    subst h2
    subst hr hc
    refine ⟨hpg, rfl, rfl, ?_, ?_⟩
    · show (page.buttons.foldl _ s.buttons).length = _
      rw [foldl_length_preserved _ _ (fun bs b => modify_at_length _ _ _) s.buttons]
      exact hlen
    · intro i hi
      show ((page.buttons.foldl _ s.buttons).get? i).map ButtonState.setup = _
      rw [load_fold_get?]
      have hfpages : alist_find? pages n = some page := by rw [← hpg]; exact hf
      have hclaims : page_claims pages s.device_rows s.device_cols n i =
          (page.get_button s.device_rows s.device_cols i).isSome := by
        unfold page_claims
        rw [hfpages]
      rcases hlh : last_hit s.device_rows s.device_cols i page.buttons with _ | b
      · have hnone : (page.get_button s.device_rows s.device_cols i).isSome = false := by
          unfold Page.get_button
          rw [← last_hit_isSome, hlh]
          rfl
        have hexp : expected_occupant pages s.device_rows s.device_cols
            (s.loaded_pages ++ [n]) i =
            expected_occupant pages s.device_rows s.device_cols s.loaded_pages i := by
          unfold expected_occupant
          rw [last_claimer_append, hclaims, hnone]
          rfl
        rw [hexp]
        exact hinv i hi
      · have hsome : (page.get_button s.device_rows s.device_cols i).isSome = true := by
          unfold Page.get_button
          rw [← last_hit_isSome, hlh]
          rfl
        rcases hgb : page.get_button s.device_rows s.device_cols i with _ | b2
        · rw [hgb] at hsome
          cases hsome
        · have hexp : expected_occupant pages s.device_rows s.device_cols
              (s.loaded_pages ++ [n]) i = b2.button_name := by
            unfold expected_occupant
            rw [last_claimer_append, hclaims, hsome]
            simp only [if_true]
            unfold claimer_name
            rw [hfpages]
            dsimp only
            rw [hgb]
          rw [hexp]
          dsimp only
          have hbs : ∃ st, s.buttons.get? i = some st := by
            rcases hbs : s.buttons.get? i with _ | st
            · have := hinv i hi
              rw [hbs] at this
              cases this
            · exact ⟨st, rfl⟩
          obtain ⟨st, hst⟩ := hbs
          rw [hst]
          have hname : b.button_name = b2.button_name := by
            obtain ⟨hmem1, hidx1⟩ := last_hit_mem _ _ _ _ _ hlh
            have hmem2 := List.mem_of_find?_eq_some hgb
            have hidx2 : b2.position.to_button_index s.device_rows s.device_cols = i := by
              have := List.find?_some hgb
              simpa using this
            obtain ⟨np, hnp, _, hsnd⟩ := alist_find?_mem pages n page hfpages
            exact hcons np hnp b (hsnd ▸ hmem1) b2 (hsnd ▸ hmem2) (by rw [hidx1, hidx2])
          rw [hname]
          rfl

/-- Unloading a page preserves the slot invariant. -/
theorem unload_page_slots_ok (pages : List (String × Page)) (r c : Nat)
    (s s2 : AppState) (n : String)
    (hs : slots_ok pages r c s) (h : s.apply_op (.unload n) = some s2) :
    slots_ok pages r c s2 := by
  obtain ⟨hpg, hr, hc, hlen, hinv⟩ := hs
  unfold AppState.apply_op AppState.unload_page at h
  dsimp only at h
  rcases hf : alist_find? s.pages n with _ | page
  · rw [hf] at h
    cases h
  · rw [hf] at h
    dsimp only at h
    injection h with h2
    subst h2
    subst hr hc
    have hbody :
        (fun (bs : List ButtonState) (button_index : Nat) =>
          if (page.get_button s.device_rows s.device_cols button_index).isSome then
            replay_slot s.pages (s.loaded_pages.filter (fun i => i != n))
              s.device_rows s.device_cols bs button_index
          else bs) =
        (fun (bs : List ButtonState) (button_index : Nat) =>
          if (page.get_button s.device_rows s.device_cols button_index).isSome then
            modify_at bs button_index (fun st => st.set_button
              (expected_occupant s.pages s.device_rows s.device_cols
                (s.loaded_pages.filter (fun i => i != n)) button_index))
          else bs) := by
      funext bs j
      by_cases hp : (page.get_button s.device_rows s.device_cols j).isSome
      · rw [if_pos hp, if_pos hp, replay_slot_eq, stack_fold_claimer]
        rfl
      · rw [if_neg hp, if_neg hp]
    refine ⟨hpg, rfl, rfl, ?_, ?_⟩
    · show ((List.range _).foldl _ s.buttons).length = _
      rw [hbody,
        foldl_length_preserved _ _
          (fun bs j => by
            by_cases hp : (page.get_button s.device_rows s.device_cols j).isSome
            · rw [if_pos hp, modify_at_length]
            · rw [if_neg hp]) s.buttons]
      exact hlen
    · intro i hi
      show (((List.range _).foldl _ s.buttons).get? i).map ButtonState.setup = _
      rw [hbody, range_modify_fold_get?]
      have hfpages : alist_find? pages n = some page := by rw [← hpg]; exact hf
      by_cases hp : (page.get_button s.device_rows s.device_cols i).isSome
      · rw [if_pos ⟨hi, hp⟩]
        have hbs : ∃ st, s.buttons.get? i = some st := by
          rcases hbs : s.buttons.get? i with _ | st
          · have := hinv i hi
            rw [hbs] at this
            cases this
          · exact ⟨st, rfl⟩
        obtain ⟨st, hst⟩ := hbs
        rw [hst, hpg]
        rfl
      · rw [if_neg (by tauto)]
        have hclaims : page_claims pages s.device_rows s.device_cols n i = false := by
          unfold page_claims
          rw [hfpages]
          simpa using hp
        have hexp : expected_occupant pages s.device_rows s.device_cols
            (s.loaded_pages.filter (fun i => i != n)) i =
            expected_occupant pages s.device_rows s.device_cols s.loaded_pages i := by
          unfold expected_occupant
          rw [last_claimer_filter _ _ _ _ _ _ hclaims]
        rw [hexp]
        exact hinv i hi

/-- Any successful sequence of page operations preserves the slot
invariant. -/
theorem apply_ops_slots_ok (pages : List (String × Page)) (r c : Nat)
    (hcons : pages_consistent pages r c) (ops : List PageOp) :
    ∀ s s2 : AppState, slots_ok pages r c s → s.apply_ops ops = some s2 →
      slots_ok pages r c s2 := by
  induction ops with
  | nil =>
    intro s s2 hs h
    unfold AppState.apply_ops at h
    injection h with h2
    subst h2
    exact hs
  | cons op rest ih =>
    intro s s2 hs h
    unfold AppState.apply_ops at h
    rcases hop : s.apply_op op with _ | smid
    · rw [hop] at h
      cases h
    · rw [hop] at h
      have hmid : slots_ok pages r c smid := by
        cases op with
        | load nm => exact load_page_slots_ok pages r c hcons s smid nm hs hop
        | unload nm => exact unload_page_slots_ok pages r c s smid nm hs hop
      exact ih smid s2 hmid h

/-- C1: after any successful sequence of `load_page` / `unload_page`
operations starting from the freshly constructed state, every slot
claimed by a page of the loaded-page stack holds the name that the most
recently loaded claiming page binds there, and every other slot holds
`"empty"` (`expected_occupant` states exactly that).  The consistency
hypothesis reads the claim's definite article: within one page, bindings
resolving to the same slot bind the same name. -/
theorem c1_page_stack_invariant (defaults : Defaults) (named : List (String × ButtonSetup))
    (pages : List (String × Page)) (r c : Nat) (init : Option EventHandler)
    (hcons : pages_consistent pages r c) (ops : List PageOp) (s : AppState)
    (h : (AppState.fresh defaults named pages r c init).apply_ops ops = some s) :
    ∀ i, i < r * c →
      (s.buttons.get? i).map ButtonState.setup =
        some (.name (expected_occupant pages r c s.loaded_pages i)) :=
  (apply_ops_slots_ok pages r c hcons ops _ s
    (fresh_slots_ok defaults named pages r c init) h).2.2.2.2

/-- Witness for C1: a 1 × 1 device, one page `"p"` binding the slot to
`"a"`, and the operation sequence `[load "p"]`. -/
theorem c1_page_stack_invariant_witness :
    pages_consistent [("p", sample_page)] 1 1 ∧
    (AppState.fresh default_defaults [] [("p", sample_page)] 1 1 none).apply_ops
        [.load "p"] =
      some ⟨default_defaults, [], [("p", sample_page)], [⟨.name "a", .Up, none⟩], ["p"],
        1, 1, none, none⟩ ∧
    ∀ i, i < 1 * 1 →
      (((⟨default_defaults, [], [("p", sample_page)], [⟨.name "a", .Up, none⟩], ["p"],
          1, 1, none, none⟩ : AppState)).buttons.get? i).map ButtonState.setup =
        some (.name (expected_occupant [("p", sample_page)] 1 1 ["p"] i)) :=
  ⟨by unfold pages_consistent; decide, rfl,
    c1_page_stack_invariant default_defaults [] [("p", sample_page)] 1 1 none
      (by unfold pages_consistent; decide) [.load "p"]
      ⟨default_defaults, [], [("p", sample_page)], [⟨.name "a", .Up, none⟩], ["p"],
        1, 1, none, none⟩ rfl⟩

/-! ## C4 / C9 — construction of the named-button registry -/

/-- Lookup in a list filtered on a different key. -/
theorem alist_find?_filter_ne {β : Type} (l : List (String × β)) (k n : String)
    (hnk : n ≠ k) :
    alist_find? (l.filter (fun p => p.1 != k)) n = alist_find? l n := by
  induction l with
  | nil => rfl
  | cons hd tl ih =>
    by_cases hn : hd.1 == n
    · have hn2 : hd.1 = n := by simpa using hn
      have hkeep : (hd.1 != k) = true := by
        simp [hn2]
        exact hnk
      rw [List.filter_cons, if_pos hkeep]
      unfold alist_find?
      simp only [List.find?, hn]
    · have hn2 : (hd.1 == n) = false := by simpa using hn
      by_cases hk : (hd.1 != k) = true
      · rw [List.filter_cons, if_pos hk]
        unfold alist_find?
        simp only [List.find?, hn2]
        have := ih
        unfold alist_find? at this
        exact this
      · have hk2 : (hd.1 != k) = false := by simpa using hk
        rw [List.filter_cons, hk2, if_neg (by simp)]
        rw [ih]
        unfold alist_find?
        simp only [List.find?, hn2]

/-- No binding of the filtered-out key remains. -/
theorem alist_find?_filter_self {β : Type} (l : List (String × β)) (k : String) :
    alist_find? (l.filter (fun p => p.1 != k)) k = none := by
  induction l with
  | nil => rfl
  | cons hd tl ih =>
    by_cases hk : (hd.1 != k) = true
    · have hk2 : (hd.1 == k) = false := by simpa using hk
      rw [List.filter_cons, if_pos hk]
      unfold alist_find?
      simp only [List.find?, hk2]
      have := ih
      unfold alist_find? at this
      exact this
    · have hk2 : (hd.1 != k) = false := by simpa using hk
      rw [List.filter_cons, hk2, if_neg (by simp)]
      exact ih

/-- Lookup after an append. -/
theorem alist_find?_append {β : Type} (l1 l2 : List (String × β)) (n : String) :
    alist_find? (l1 ++ l2) n =
      match alist_find? l1 n with
      | some v => some v
      | none => alist_find? l2 n := by
  induction l1 with
  | nil => rfl
  | cons hd tl ih =>
    by_cases hn : hd.1 == n
    · unfold alist_find?
      simp only [List.cons_append, List.find?, hn]
    · have hn2 : (hd.1 == n) = false := by simpa using hn
      unfold alist_find?
      simp only [List.cons_append, List.find?, hn2]
      have := ih
      unfold alist_find? at this
      exact this

/-- Lookup through an insertion. -/
theorem alist_find?_insert {β : Type} (l : List (String × β)) (k n : String) (v : β) :
    alist_find? (alist_insert l k v) n = if n = k then some v else alist_find? l n := by
  unfold alist_insert
  rw [alist_find?_append]
  by_cases hnk : n = k
  · subst hnk
    rw [alist_find?_filter_self, if_pos rfl]
    simp [alist_find?, List.find?]
  · rw [alist_find?_filter_ne l k n hnk, if_neg hnk]
    rcases hf : alist_find? l n with _ | w
    · have : (k == n) = false := by simpa using fun h => hnk h.symm
      simp [alist_find?, List.find?, this]
    · rfl

/-- Containment through an insertion. -/
theorem alist_contains_insert {β : Type} (l : List (String × β)) (k n : String) (v : β) :
    alist_contains (alist_insert l k v) n = if n = k then true else alist_contains l n := by
  unfold alist_contains
  rw [alist_find?_insert]
  by_cases hnk : n = k
  · rw [if_pos hnk, if_pos hnk]
    rfl
  · rw [if_neg hnk, if_neg hnk]

/-- Insertion preserves key distinctness. -/
theorem alist_insert_keys_nodup {β : Type} (l : List (String × β)) (k : String) (v : β)
    (h : (l.map Prod.fst).Nodup) : ((alist_insert l k v).map Prod.fst).Nodup := by
  unfold alist_insert
  simp only [List.map_append, List.map_cons, List.map_nil]
  rw [List.nodup_append]
  refine ⟨?_, by simp, ?_⟩
  · exact List.Nodup.sublist (List.Sublist.map Prod.fst (List.filter_sublist l)) h
  · intro a ha hak
    simp only [List.mem_singleton] at hak
    subst hak
    simp only [List.mem_map] at ha
    obtain ⟨p, hp, hpa⟩ := ha
    have := List.of_mem_filter hp
    simp [hpa] at this

/-- A label with a resolvable color builds. -/
theorem text_build_ok (l : LabelConfig) (h : label_ok (some l) = true) :
    ∃ t, ColoredText.from_config l = .ok t := by
  cases l with
  | JustText t => exact ⟨⟨none, t⟩, rfl⟩
  | WithColor c t =>
    cases c with
    | none => exact ⟨⟨none, t⟩, rfl⟩
    | some cc =>
      unfold label_ok color_ok at h
      dsimp only at h
      rcases hc : cc.to_image_rgba_color with _ | _ | v
      · rw [hc] at h
        cases h
      · rw [hc] at h
        cases h
      · refine ⟨⟨some v, t⟩, ?_⟩
        unfold ColoredText.from_config
        dsimp only
        rw [hc]

/-- A face configuration whose colors resolve builds. -/
theorem face_build_ok (fc : ButtonFaceConfig) (h : face_ok (some fc) = true) :
    ∃ bf, ButtonFace.from_config fc = .ok bf := by
  unfold face_ok at h
  simp only [Bool.and_eq_true] at h
  obtain ⟨⟨⟨hcol, hlab⟩, hsub⟩, hsup⟩ := h
  unfold ButtonFace.from_config
  have hc : ∃ co, (match fc.color with
      | none => .ok none
      | some c =>
        match c.to_image_rgba_color with
        | .panicked => CRes.panicked
        | .invalid_hex => CRes.err .ConfigError
        | .ok v => .ok (some v) : CRes (Option Rgba)) = .ok co := by
    rcases hfc : fc.color with _ | cc
    · exact ⟨none, rfl⟩
    · unfold color_ok at hcol
      rw [hfc] at hcol
      dsimp only at hcol
      rcases hcc : cc.to_image_rgba_color with _ | _ | v
      · rw [hcc] at hcol
        cases hcol
      · rw [hcc] at hcol
        cases hcol
      · dsimp only
        rw [hcc]
        exact ⟨some v, rfl⟩
  have hl : ∃ lo, (match fc.label with
      | none => .ok none
      | some l => (ColoredText.from_config l).bind (fun t => .ok (some t)) :
        CRes (Option ColoredText)) = .ok lo := by
    rcases hfl : fc.label with _ | l
    · exact ⟨none, rfl⟩
    · rw [hfl] at hlab
      obtain ⟨t, ht⟩ := text_build_ok l hlab
      dsimp only
      rw [ht]
      exact ⟨some t, rfl⟩
  have hsl : ∃ lo, (match fc.sublabel with
      | none => .ok none
      | some l => (ColoredText.from_config l).bind (fun t => .ok (some t)) :
        CRes (Option ColoredText)) = .ok lo := by
    rcases hfl : fc.sublabel with _ | l
    · exact ⟨none, rfl⟩
    · rw [hfl] at hsub
      obtain ⟨t, ht⟩ := text_build_ok l hsub
      dsimp only
      rw [ht]
      exact ⟨some t, rfl⟩
  have hsp : ∃ lo, (match fc.superlabel with
      | none => .ok none
      | some l => (ColoredText.from_config l).bind (fun t => .ok (some t)) :
        CRes (Option ColoredText)) = .ok lo := by
    rcases hfl : fc.superlabel with _ | l
    · exact ⟨none, rfl⟩
    · rw [hfl] at hsup
      obtain ⟨t, ht⟩ := text_build_ok l hsup
      dsimp only
      rw [ht]
      exact ⟨some t, rfl⟩
  obtain ⟨co, hco⟩ := hc
  obtain ⟨lo, hlo⟩ := hl
  obtain ⟨so, hso⟩ := hsl
  obtain ⟨po, hpo⟩ := hsp
  refine ⟨⟨co, fc.file, lo, so, po⟩, ?_⟩
  rw [hco, hlo, hso, hpo]
  rfl

/-- A setup whose faces build builds. -/
theorem parts_build_ok (uf df : Option ButtonFaceConfig)
    (uh dh : Option EventHandlerConfig)
    (h1 : face_ok uf = true) (h2 : face_ok df = true) :
    ∃ st, ButtonSetup.from_parts uf df uh dh = .ok st := by
  unfold ButtonSetup.from_parts
  have hu : ∃ fo, (match uf with
      | none => .ok none
      | some f => (ButtonFace.from_config f).bind (fun x => .ok (some x)) :
        CRes (Option ButtonFace)) = .ok fo := by
    rcases hf : uf with _ | f
    · exact ⟨none, rfl⟩
    · rw [hf] at h1
      obtain ⟨bf, hbf⟩ := face_build_ok f h1
      dsimp only
      rw [hbf]
      exact ⟨some bf, rfl⟩
  have hd : ∃ fo, (match df with
      | none => .ok none
      | some f => (ButtonFace.from_config f).bind (fun x => .ok (some x)) :
        CRes (Option ButtonFace)) = .ok fo := by
    rcases hf : df with _ | f
    · exact ⟨none, rfl⟩
    · rw [hf] at h2
      obtain ⟨bf, hbf⟩ := face_build_ok f h2
      dsimp only
      rw [hbf]
      exact ⟨some bf, rfl⟩
  obtain ⟨fo, hfo⟩ := hu
  obtain ⟨go, hgo⟩ := hd
  refine ⟨⟨fo, go, uh.map EventHandler.from_config, dh.map EventHandler.from_config⟩, ?_⟩
  simp only [hfo, hgo]
  rfl

/-! ## C4/C9 — construction of the named-button registry -/

/-- Splitting a successful `CRes` bind. -/
theorem cres_bind_ok {α β : Type} (x : CRes α) (f : α → CRes β) (b : β) :
    CRes.bind x f = .ok b ↔ ∃ a, x = .ok a ∧ f a = .ok b := by
  cases x <;> simp [CRes.bind]

/-- Reducing a bind of a success. -/
theorem cres_bind_ok_left {α β : Type} (a : α) (f : α → CRes β) :
    CRes.bind (.ok a) f = f a := rfl

/-- Boolean membership reading of `alist_contains`. -/
theorem alist_contains_iff_mem {β : Type} (l : List (String × β)) (n : String) :
    alist_contains l n = true ↔ n ∈ l.map Prod.fst := by
  constructor
  · intro h
    unfold alist_contains alist_find? at h
    rcases hf : l.find? (fun p => p.1 == n) with _ | p
    · rw [hf] at h
      simp at h
    · have heq := List.find?_some hf
      have hmem := List.mem_of_find?_eq_some hf
      simp only [beq_iff_eq] at heq
      subst heq
      exact List.mem_map_of_mem Prod.fst hmem
  · intro h
    unfold alist_contains
    exact alist_find?_isSome_of_mem_fst l n h

/-- A resolvable color resolves. -/
theorem resolve_color_ok (fb : Rgba) (oc : Option ColorConfig)
    (h : color_ok oc = true) : ∃ v, resolve_color fb oc = .ok v := by
  cases oc with
  | none => exact ⟨fb, rfl⟩
  | some c =>
    unfold color_ok at h
    dsimp only at h
    rcases hc : c.to_image_rgba_color with _ | _ | v
    · rw [hc] at h
      cases h
    · rw [hc] at h
      cases h
    · refine ⟨v, ?_⟩
      unfold resolve_color
      dsimp only
      rw [hc]

/-- Resolvable defaults build. -/
theorem defaults_build_ok (od : Option DefaultsConfig)
    (h : (match od with
          | none => true
          | some d =>
            color_ok d.background_color && color_ok d.label_color &&
              color_ok d.superlabel_color && color_ok d.sublabel_color) = true) :
    ∃ d, Defaults.from_config od = .ok d := by
  cases od with
  | none => exact ⟨_, rfl⟩
  | some c =>
    dsimp only at h
    simp only [Bool.and_eq_true] at h
    obtain ⟨⟨⟨h1, h2⟩, h3⟩, h4⟩ := h
    obtain ⟨v1, hv1⟩ := resolve_color_ok ⟨0, 0, 0, 255⟩ c.background_color h1
    obtain ⟨v2, hv2⟩ := resolve_color_ok ⟨255, 255, 255, 255⟩ c.label_color h2
    obtain ⟨v3, hv3⟩ := resolve_color_ok ⟨255, 255, 0, 255⟩ c.superlabel_color h3
    obtain ⟨v4, hv4⟩ := resolve_color_ok ⟨0, 255, 255, 255⟩ c.sublabel_color h4
    refine ⟨⟨v1, v2, v3, v4⟩, ?_⟩
    unfold Defaults.from_config
    dsimp only
    rw [hv1, hv2, hv3, hv4]
    rfl

/-- Under resolvable colors, `ButtonSetup::from_config_with_name`
builds. -/
theorem named_setup_build_ok (bc : ButtonConfigWithName)
    (h1 : face_ok bc.up_face = true) (h2 : face_ok bc.down_face = true) :
    ∃ st, ButtonSetup.from_config_with_name bc = .ok st :=
  parts_build_ok bc.up_face bc.down_face bc.up_handler bc.down_handler h1 h2

/-- Under resolvable colors, `ButtonSetup::from_optional_name_config`
builds. -/
theorem optional_setup_build_ok (sc : ButtonConfigOptionalName)
    (h1 : face_ok sc.up_face = true) (h2 : face_ok sc.down_face = true) :
    ∃ st, ButtonSetup.from_optional_name_config sc = .ok st :=
  parts_build_ok sc.up_face sc.down_face sc.up_handler sc.down_handler h1 h2

/-- The synthesized `"empty"` button builds to `empty_setup`. -/
theorem empty_setup_builds :
    ButtonSetup.from_config_with_name empty_button_config = .ok empty_setup := rfl

/-- `build_named_buttons` either succeeds or reports a duplicate name,
provided every explicit setup builds. -/
theorem bn_shape (l : List ButtonConfigWithName)
    (h : ∀ bc ∈ l, ∃ st, ButtonSetup.from_config_with_name bc = .ok st) :
    ∀ acc, (∃ m, build_named_buttons l acc = .ok m) ∨
      (∃ n, build_named_buttons l acc = .err (.DuplicateNamedButton n)) := by
  induction l with
  | nil => exact fun acc => .inl ⟨acc, rfl⟩
  | cons bc rest ih =>
    intro acc
    obtain ⟨st, hst⟩ := h bc (List.mem_cons_self bc rest)
    unfold build_named_buttons
    by_cases hct : alist_contains acc bc.name = true
    · right
      exact ⟨bc.name, by rw [if_pos hct]⟩
    · rw [if_neg hct, hst]
      dsimp only
      exact ih (fun b hb => h b (List.mem_cons_of_mem bc hb)) _

/-- `build_named_buttons` succeeds exactly when the explicit names are
pairwise distinct and avoid the accumulator. -/
theorem bn_ok_iff (l : List ButtonConfigWithName)
    (h : ∀ bc ∈ l, ∃ st, ButtonSetup.from_config_with_name bc = .ok st) :
    ∀ acc, (∃ m, build_named_buttons l acc = .ok m) ↔
      ((l.map (fun bc => bc.name)).Nodup ∧
        ∀ bc ∈ l, alist_contains acc bc.name = false) := by
  induction l with
  | nil => simp [build_named_buttons]
  | cons bc rest ih =>
    intro acc
    obtain ⟨st, hst⟩ := h bc (List.mem_cons_self bc rest)
    have ihr := ih (fun b hb => h b (List.mem_cons_of_mem bc hb))
    constructor
    · rintro ⟨m, hm⟩
      unfold build_named_buttons at hm
      by_cases hct : alist_contains acc bc.name = true
      · rw [if_pos hct] at hm
        cases hm
      · rw [if_neg hct, hst] at hm
        dsimp only at hm
        obtain ⟨hnd, hfresh⟩ := (ihr _).mp ⟨m, hm⟩
        have hfresh2 : ∀ b ∈ rest, b.name ≠ bc.name ∧ alist_contains acc b.name = false := by
          intro b hb
          have := hfresh b hb
          rw [alist_contains_insert] at this
          by_cases hbe : b.name = bc.name
          · rw [if_pos hbe] at this
            cases this
          · rw [if_neg hbe] at this
            exact ⟨hbe, this⟩
        refine ⟨?_, ?_⟩
        · rw [List.map_cons, List.nodup_cons]
          refine ⟨?_, hnd⟩
          intro hmem
          obtain ⟨b, hb, hbe⟩ := List.mem_map.mp hmem
          exact (hfresh2 b hb).1 hbe
        · intro b hb
          rcases List.mem_cons.mp hb with he | hr
          · subst he
            exact Bool.not_eq_true _ ▸ (by simpa using hct)
          · exact (hfresh2 b hr).2
    · rintro ⟨hnd, hfresh⟩
      have hct : alist_contains acc bc.name = false :=
        hfresh bc (List.mem_cons_self bc rest)
      unfold build_named_buttons
      rw [if_neg (by simp [hct]), hst]
      dsimp only
      rw [List.map_cons, List.nodup_cons] at hnd
      refine (ihr _).mpr ⟨hnd.2, ?_⟩
      intro b hb
      rw [alist_contains_insert]
      have hne : b.name ≠ bc.name := by
        intro he
        exact hnd.1 (List.mem_map.mpr ⟨b, hb, he⟩)
      rw [if_neg hne]
      exact hfresh b (List.mem_cons_of_mem bc hb)

/-- Keys present after a successful `build_named_buttons`. -/
theorem bn_contains (l : List ButtonConfigWithName) :
    ∀ acc m, build_named_buttons l acc = .ok m → ∀ n,
      alist_contains m n =
        (alist_contains acc n || (l.map (fun bc => bc.name)).contains n) := by
  induction l with
  | nil =>
    intro acc m hm n
    unfold build_named_buttons at hm
    cases hm
    simp
  | cons bc rest ih =>
    intro acc m hm n
    unfold build_named_buttons at hm
    by_cases hct : alist_contains acc bc.name = true
    · rw [if_pos hct] at hm
      cases hm
    · rw [if_neg hct] at hm
      rcases hst : ButtonSetup.from_config_with_name bc with _ | e | st
      all_goals rw [hst] at hm
      · cases hm
      · cases hm
      · dsimp only at hm
        rw [ih _ _ hm n, alist_contains_insert]
        by_cases hn : n = bc.name
        · subst hn
          simp
        · rw [if_neg hn]
          simp [hn]

/-- A key already bound keeps its binding through
`build_named_buttons`. -/
theorem bn_find_preserved (l : List ButtonConfigWithName) :
    ∀ acc m, build_named_buttons l acc = .ok m → ∀ n,
      alist_contains acc n = true → alist_find? m n = alist_find? acc n := by
  induction l with
  | nil =>
    intro acc m hm n _
    unfold build_named_buttons at hm
    cases hm
    rfl
  | cons bc rest ih =>
    intro acc m hm n hn
    unfold build_named_buttons at hm
    by_cases hct : alist_contains acc bc.name = true
    · rw [if_pos hct] at hm
      cases hm
    · rw [if_neg hct] at hm
      rcases hst : ButtonSetup.from_config_with_name bc with _ | e | st
      all_goals rw [hst] at hm
      · cases hm
      · cases hm
      · dsimp only at hm
        have hne : n ≠ bc.name := fun he => hct (he ▸ hn)
        have h2 : alist_contains (alist_insert acc bc.name st) n = true := by
          rw [alist_contains_insert, if_neg hne]
          exact hn
        rw [ih _ _ hm n h2, alist_find?_insert, if_neg hne]

/-- Each processed explicit button ends bound to its built setup. -/
theorem bn_find_new (l : List ButtonConfigWithName) (bc : ButtonConfigWithName) :
    ∀ acc m, build_named_buttons l acc = .ok m → bc ∈ l →
      ∃ st, ButtonSetup.from_config_with_name bc = .ok st ∧
        alist_find? m bc.name = some st := by
  induction l with
  | nil =>
    intro acc m _ hmem
    cases hmem
  | cons b rest ih =>
    intro acc m hm hmem
    unfold build_named_buttons at hm
    by_cases hct : alist_contains acc b.name = true
    · rw [if_pos hct] at hm
      cases hm
    · rw [if_neg hct] at hm
      rcases hst : ButtonSetup.from_config_with_name b with _ | e | st
      all_goals rw [hst] at hm
      · cases hm
      · cases hm
      · dsimp only at hm
        rcases List.mem_cons.mp hmem with he | hr
        · subst he
          refine ⟨st, hst, ?_⟩
          have h2 : alist_contains (alist_insert acc bc.name st) bc.name = true := by
            rw [alist_contains_insert, if_pos rfl]
          rw [bn_find_preserved rest _ _ hm bc.name h2, alist_find?_insert, if_pos rfl]
        · exact ih _ _ hm hr

/-- `merge_named_buttons` either succeeds or reports a duplicate. -/
theorem merge_shape (l : List (String × ButtonSetup)) :
    ∀ acc, (∃ m, merge_named_buttons l acc = .ok m) ∨
      (∃ n, merge_named_buttons l acc = .err (.DuplicateNamedButton n)) := by
  induction l with
  | nil => exact fun acc => .inl ⟨acc, rfl⟩
  | cons nb rest ih =>
    intro acc
    unfold merge_named_buttons
    by_cases hct : alist_contains acc nb.1 = true
    · right
      exact ⟨nb.1, by rw [if_pos hct]⟩
    · rw [if_neg hct]
      exact ih _

/-- `merge_named_buttons` succeeds exactly when the incoming keys are
pairwise distinct and avoid the accumulator. -/
theorem merge_ok_iff (l : List (String × ButtonSetup)) :
    ∀ acc, (∃ m, merge_named_buttons l acc = .ok m) ↔
      ((l.map Prod.fst).Nodup ∧ ∀ p ∈ l, alist_contains acc p.1 = false) := by
  induction l with
  | nil => simp [merge_named_buttons]
  | cons nb rest ih =>
    intro acc
    constructor
    · rintro ⟨m, hm⟩
      unfold merge_named_buttons at hm
      by_cases hct : alist_contains acc nb.1 = true
      · rw [if_pos hct] at hm
        cases hm
      · rw [if_neg hct] at hm
        obtain ⟨hnd, hfresh⟩ := (ih _).mp ⟨m, hm⟩
        have hfresh2 : ∀ p ∈ rest, p.1 ≠ nb.1 ∧ alist_contains acc p.1 = false := by
          intro p hp
          have := hfresh p hp
          rw [alist_contains_insert] at this
          by_cases hbe : p.1 = nb.1
          · rw [if_pos hbe] at this
            cases this
          · rw [if_neg hbe] at this
            exact ⟨hbe, this⟩
        refine ⟨?_, ?_⟩
        · rw [List.map_cons, List.nodup_cons]
          refine ⟨?_, hnd⟩
          intro hmem
          obtain ⟨p, hp, hpe⟩ := List.mem_map.mp hmem
          exact (hfresh2 p hp).1 hpe
        · intro p hp
          rcases List.mem_cons.mp hp with he | hr
          · subst he
            simpa using hct
          · exact (hfresh2 p hr).2
    · rintro ⟨hnd, hfresh⟩
      have hct : alist_contains acc nb.1 = false :=
        hfresh nb (List.mem_cons_self nb rest)
      unfold merge_named_buttons
      rw [if_neg (by simp [hct])]
      rw [List.map_cons, List.nodup_cons] at hnd
      refine (ih _).mpr ⟨hnd.2, ?_⟩
      intro p hp
      rw [alist_contains_insert]
      have hne : p.1 ≠ nb.1 := by
        intro he
        exact hnd.1 (List.mem_map.mpr ⟨p, hp, he⟩)
      rw [if_neg hne]
      exact hfresh p (List.mem_cons_of_mem nb hp)

/-- Keys present after a successful merge. -/
theorem merge_contains (l : List (String × ButtonSetup)) :
    ∀ acc m, merge_named_buttons l acc = .ok m → ∀ n,
      alist_contains m n =
        (alist_contains acc n || (l.map Prod.fst).contains n) := by
  induction l with
  | nil =>
    intro acc m hm n
    unfold merge_named_buttons at hm
    cases hm
    simp
  | cons nb rest ih =>
    intro acc m hm n
    unfold merge_named_buttons at hm
    by_cases hct : alist_contains acc nb.1 = true
    · rw [if_pos hct] at hm
      cases hm
    · rw [if_neg hct] at hm
      rw [ih _ _ hm n, alist_contains_insert]
      by_cases hn : n = nb.1
      · subst hn
        simp
      · rw [if_neg hn]
        have hnb : (n == nb.1) = false := by simpa using hn
        simp [hn, hnb]

/-- A key already bound keeps its binding through a successful merge. -/
theorem merge_find_preserved (l : List (String × ButtonSetup)) :
    ∀ acc m, merge_named_buttons l acc = .ok m → ∀ n,
      alist_contains acc n = true → alist_find? m n = alist_find? acc n := by
  induction l with
  | nil =>
    intro acc m hm n _
    unfold merge_named_buttons at hm
    cases hm
    rfl
  | cons nb rest ih =>
    intro acc m hm n hn
    unfold merge_named_buttons at hm
    by_cases hct : alist_contains acc nb.1 = true
    · rw [if_pos hct] at hm
      cases hm
    · rw [if_neg hct] at hm
      have hne : n ≠ nb.1 := fun he => hct (he ▸ hn)
      have h2 : alist_contains (alist_insert acc nb.1 nb.2) n = true := by
        rw [alist_contains_insert, if_neg hne]
        exact hn
      rw [ih _ _ hm n h2, alist_find?_insert, if_neg hne]

/-- List disjointness is symmetric. -/
theorem disjoint_flip {α : Type} (l1 l2 : List α) :
    (∀ n ∈ l1, ¬n ∈ l2) ↔ ∀ n ∈ l2, ¬n ∈ l1 :=
  ⟨fun h n h2 h1 => h n h1 h2, fun h n h1 h2 => h n h2 h1⟩

/-- `pages_addable` only depends on the extension of the taken set. -/
theorem pages_addable_congr (r c : Nat) (pcs : List PageConfig) :
    ∀ p q : String → Prop, (∀ n, p n ↔ q n) →
      (pages_addable r c p pcs ↔ pages_addable r c q pcs) := by
  induction pcs with
  | nil =>
    intro p q _
    exact Iff.rfl
  | cons pc rest ih =>
    intro p q hpq
    unfold pages_addable
    constructor
    · rintro ⟨h1, h2⟩
      refine ⟨fun n hn hq => h1 n hn ((hpq n).mpr hq), ?_⟩
      exact (ih _ _ (fun n => by rw [hpq n])).mp h2
    · rintro ⟨h1, h2⟩
      refine ⟨fun n hn hp => h1 n hn ((hpq n).mp hp), ?_⟩
      exact (ih _ _ (fun n => by rw [hpq n])).mpr h2

/-- Unrolling `pages_addable`: every page's names avoid the base taken
set, and the pages' name lists are pairwise disjoint. -/
theorem pages_addable_iff (r c : Nat) (pcs : List PageConfig) :
    ∀ base : String → Prop,
      pages_addable r c base pcs ↔
        ((∀ pc ∈ pcs, ∀ n ∈ page_inline_names r c pc, ¬base n) ∧
          (pcs.map (page_inline_names r c)).Pairwise
            (fun l1 l2 => ∀ n ∈ l1, ¬n ∈ l2)) := by
  induction pcs with
  | nil =>
    intro base
    simp [pages_addable]
  | cons pc rest ih =>
    intro base
    unfold pages_addable
    rw [ih]
    simp only [List.map_cons, List.pairwise_cons, List.forall_mem_cons]
    constructor
    · rintro ⟨h1, h2, h3⟩
      refine ⟨⟨h1, fun pc2 h2m n hn hb => h2 pc2 h2m n hn (Or.inl hb)⟩, ?_, h3⟩
      intro l2 hl2 n hn hmem
      obtain ⟨pc2, hpc2, heq⟩ := List.mem_map.mp hl2
      subst heq
      exact h2 pc2 hpc2 n hmem (Or.inr hn)
    · rintro ⟨⟨h1, h2⟩, h3, h4⟩
      refine ⟨h1, ?_, h4⟩
      intro pc2 h2m n hn hor
      rcases hor with hb | hin
      · exact h2 pc2 h2m n hn hb
      · exact h3 (page_inline_names r c pc2) (List.mem_map_of_mem _ h2m) n hin hn

/-- `page_inline_names` is the per-entry `inline_name` map over the
page's button list. -/
theorem page_inline_names_eq (r c : Nat) (pc : PageConfig) :
    page_inline_names r c pc = pc.buttons.filterMap (inline_name pc.name r c) := rfl

/-- A single page-button entry builds under resolvable colors, and the
name it introduces is its `inline_name`. -/
theorem pbc_build (pn : String) (r c : Nat) (bc : PageButtonConfig)
    (h : (match bc.button with
          | .ButtonName _ => true
          | .Button sc => face_ok sc.up_face && face_ok sc.down_face) = true) :
    ∃ res, PositionedButtonSetup.from_config_with_named_button pn r c bc = .ok res ∧
      Option.map Prod.fst res.2 = inline_name pn r c bc := by
  cases hb : bc.button with
  | ButtonName s =>
    refine ⟨(⟨bc.position, s⟩, none), ?_, ?_⟩
    · unfold PositionedButtonSetup.from_config_with_named_button
      rw [hb]
    · unfold inline_name
      rw [hb]
      rfl
  | Button sc =>
    rw [hb] at h
    simp only [Bool.and_eq_true] at h
    obtain ⟨st, hst⟩ := optional_setup_build_ok sc h.1 h.2
    refine ⟨(⟨bc.position,
      match sc.name with
      | some n => n
      | none =>
        "page_" ++ pn ++ "_button_" ++
          toString (bc.position.to_button_index r c)⟩,
      some (match sc.name with
            | some n => n
            | none =>
              "page_" ++ pn ++ "_button_" ++
                toString (bc.position.to_button_index r c), st)), ?_, ?_⟩
    · unfold PositionedButtonSetup.from_config_with_named_button
      rw [hb]
      dsimp only
      rw [hst]
      rfl
    · unfold inline_name
      rw [hb]
      rfl

/-- Under resolvable colors, the page button loop never fails. -/
theorem pb_ok (pn : String) (r c : Nat) (bcs : List PageButtonConfig)
    (h : page_buttons_colors_ok bcs = true) :
    ∀ btns named, ∃ x, Page.build_buttons pn r c bcs btns named = .ok x := by
  induction bcs with
  | nil => exact fun btns named => ⟨(btns, named), rfl⟩
  | cons bc rest ih =>
    intro btns named
    unfold page_buttons_colors_ok at h
    rw [List.all_cons, Bool.and_eq_true] at h
    obtain ⟨res, hres, _⟩ := pbc_build pn r c bc h.1
    obtain ⟨x, hx⟩ := ih h.2 (btns ++ [res.1])
      (match res.2 with
       | some nb => alist_insert named nb.1 nb.2
       | none => named)
    refine ⟨x, ?_⟩
    unfold Page.build_buttons
    rw [hres]
    dsimp only [CRes.bind]
    exact hx

/-- Keys of the per-page map a successful page build produces. -/
theorem pb_contains (pn : String) (r c : Nat) (bcs : List PageButtonConfig) :
    ∀ btns named x, Page.build_buttons pn r c bcs btns named = .ok x → ∀ n,
      alist_contains x.2 n =
        (alist_contains named n || (bcs.filterMap (inline_name pn r c)).contains n) := by
  induction bcs with
  | nil =>
    intro btns named x hm n
    unfold Page.build_buttons at hm
    cases hm
    simp
  | cons bc rest ih =>
    intro btns named x hm n
    unfold Page.build_buttons at hm
    rw [cres_bind_ok] at hm
    obtain ⟨res, hres, hm2⟩ := hm
    cases hb : bc.button with
    | ButtonName s =>
      unfold PositionedButtonSetup.from_config_with_named_button at hres
      rw [hb] at hres
      cases hres
      dsimp only at hm2
      rw [ih _ _ _ hm2 n]
      unfold inline_name
      rw [List.filterMap_cons, hb]
    | Button sc =>
      unfold PositionedButtonSetup.from_config_with_named_button at hres
      rw [hb] at hres
      dsimp only at hres
      rw [cres_bind_ok] at hres
      obtain ⟨st, hst, heq⟩ := hres
      cases heq
      dsimp only at hm2
      rw [ih _ _ _ hm2 n, alist_contains_insert]
      unfold inline_name
      rw [List.filterMap_cons, hb]
      dsimp only
      rw [List.contains_cons]
      by_cases hn : n = (match sc.name with
        | some n => n
        | none =>
          "page_" ++ pn ++ "_button_" ++
            toString (bc.position.to_button_index r c))
      · rw [if_pos hn]
        have hnb : (n == (match sc.name with
          | some n => n
          | none =>
            "page_" ++ pn ++ "_button_" ++
              toString (bc.position.to_button_index r c))) = true := by
          simpa using hn
        rw [hnb]
        simp
      · rw [if_neg hn]
        have hnb : (n == (match sc.name with
          | some n => n
          | none =>
            "page_" ++ pn ++ "_button_" ++
              toString (bc.position.to_button_index r c))) = false := by
          simpa using hn
        rw [hnb]
        simp

/-- A successful page build keeps the per-page keys distinct. -/
theorem pb_keys_nodup (pn : String) (r c : Nat) (bcs : List PageButtonConfig) :
    ∀ btns named x, Page.build_buttons pn r c bcs btns named = .ok x →
      (named.map Prod.fst).Nodup → (x.2.map Prod.fst).Nodup := by
  induction bcs with
  | nil =>
    intro btns named x hm hnd
    unfold Page.build_buttons at hm
    cases hm
    exact hnd
  | cons bc rest ih =>
    intro btns named x hm hnd
    unfold Page.build_buttons at hm
    rw [cres_bind_ok] at hm
    obtain ⟨res, hres, hm2⟩ := hm
    cases hr2 : res.2 with
    | none =>
      rw [hr2] at hm2
      dsimp only at hm2
      exact ih _ _ _ hm2 hnd
    | some nb =>
      rw [hr2] at hm2
      dsimp only at hm2
      exact ih _ _ _ hm2 (alist_insert_keys_nodup named nb.1 nb.2 hnd)

/-- Boolean membership of `List.contains` over strings. -/
theorem list_contains_iff (l : List String) (n : String) :
    l.contains n = true ↔ n ∈ l := by
  induction l with
  | nil => simp
  | cons a as ih =>
    rw [List.contains_cons]
    simp [ih]

/-- Under resolvable colors a page builds; its map holds exactly the
page's inline names, with distinct keys. -/
theorem pfc_ok (r c : Nat) (pc : PageConfig)
    (h : page_buttons_colors_ok pc.buttons = true) :
    ∃ pr, Page.from_config_with_named_buttons r c pc = .ok pr ∧
      (∀ n, alist_contains pr.2 n = (page_inline_names r c pc).contains n) ∧
      (pr.2.map Prod.fst).Nodup := by
  obtain ⟨x, hx⟩ := pb_ok pc.name r c pc.buttons h [] []
  refine ⟨(⟨x.1,
    match pc.on_app with
    | some cnd => cnd.conditions
    | none => [],
    match pc.on_app with
    | some cnd => cnd.remove == some true
    | none => false⟩, x.2), ?_, ?_, ?_⟩
  · unfold Page.from_config_with_named_buttons
    dsimp only
    rw [hx]
    rfl
  · intro n
    have := pb_contains pc.name r c pc.buttons [] [] x hx n
    rw [page_inline_names_eq]
    dsimp only
    rw [this]
    rfl
  · exact pb_keys_nodup pc.name r c pc.buttons [] [] x hx (by simp)

/-- `load_page` never touches the named-button registry. -/
theorem load_page_named (s : AppState) (n : String) :
    ((s.load_page n).2).named_buttons = s.named_buttons := by
  unfold AppState.load_page
  rcases hf : alist_find? s.pages n with _ | p
  · rfl
  · rfl

/-- `load_default_pages` keeps both registries. -/
theorem ld_preserved (names : List String) :
    ∀ s s2, load_default_pages s names = .ok s2 →
      s2.named_buttons = s.named_buttons ∧ s2.pages = s.pages := by
  induction names with
  | nil =>
    intro s s2 hm
    unfold load_default_pages at hm
    cases hm
    exact ⟨rfl, rfl⟩
  | cons n rest ih =>
    intro s s2 hm
    unfold load_default_pages at hm
    rcases hp : s.load_page n with ⟨res, s3⟩
    rw [hp] at hm
    cases res with
    | error e =>
      dsimp only at hm
      cases hm
    | ok u =>
      dsimp only at hm
      obtain ⟨h1, h2⟩ := ih s3 s2 hm
      have hn : s3.named_buttons = s.named_buttons := by
        have := load_page_named s n
        rw [hp] at this
        exact this
      have hpg : s3.pages = s.pages := by
        have := load_page_pages s n
        rw [hp] at this
        exact this
      exact ⟨hn.symm ▸ h1, hpg.symm ▸ h2⟩

/-- Loading default pages succeeds when every name is registered. -/
theorem ld_ok (names : List String) :
    ∀ s : AppState, (∀ n ∈ names, alist_contains s.pages n = true) →
      ∃ s2, load_default_pages s names = .ok s2 := by
  induction names with
  | nil => exact fun s _ => ⟨s, rfl⟩
  | cons n rest ih =>
    intro s h
    have hc : (alist_find? s.pages n).isSome := h n (List.mem_cons_self n rest)
    have hl := load_page_ok s n hc
    rcases hp : s.load_page n with ⟨res, s3⟩
    rw [hp] at hl
    dsimp only at hl
    subst hl
    have hpg : s3.pages = s.pages := by
      have := load_page_pages s n
      rw [hp] at this
      exact this
    obtain ⟨s2, hs2⟩ := ih s3 (by
      intro m hm
      rw [hpg]
      exact h m (List.mem_cons_of_mem n hm))
    refine ⟨s2, ?_⟩
    unfold load_default_pages
    rw [hp]
    exact hs2

/-- `build_pages` either succeeds or reports a duplicate, under
resolvable colors. -/
theorem bp_shape (r c : Nat) (pcs : List PageConfig)
    (h : pcs.all (fun pc => page_buttons_colors_ok pc.buttons) = true) :
    ∀ pages named, (∃ b, build_pages r c pcs pages named = .ok b) ∨
      (∃ n, build_pages r c pcs pages named = .err (.DuplicateNamedButton n)) := by
  induction pcs with
  | nil => exact fun pages named => .inl ⟨(pages, named), rfl⟩
  | cons pc rest ih =>
    intro pages named
    rw [List.all_cons, Bool.and_eq_true] at h
    obtain ⟨pr, hpr, hprc, hprn⟩ := pfc_ok r c pc h.1
    unfold build_pages
    rw [hpr]
    dsimp only [CRes.bind]
    rcases merge_shape pr.2 named with ⟨m, hm⟩ | ⟨n, hn⟩
    · rw [hm]
      dsimp only [CRes.bind]
      exact ih h.2 _ _
    · right
      refine ⟨n, ?_⟩
      rw [hn]

/-- Success of `build_pages` is exactly the freshness discipline
`pages_addable`, under resolvable colors. -/
theorem bp_ok_iff (r c : Nat) (pcs : List PageConfig)
    (h : pcs.all (fun pc => page_buttons_colors_ok pc.buttons) = true) :
    ∀ pages named, (∃ b, build_pages r c pcs pages named = .ok b) ↔
      pages_addable r c (fun n => alist_contains named n = true) pcs := by
  induction pcs with
  | nil =>
    intro pages named
    simp [build_pages, pages_addable]
  | cons pc rest ih =>
    intro pages named
    rw [List.all_cons, Bool.and_eq_true] at h
    obtain ⟨pr, hpr, hprc, hprn⟩ := pfc_ok r c pc h.1
    unfold build_pages pages_addable
    rw [hpr, cres_bind_ok_left]
    constructor
    · rintro ⟨b, hb⟩
      rw [cres_bind_ok] at hb
      obtain ⟨named2, hm, hb2⟩ := hb
      have hmerge := (merge_ok_iff pr.2 named).mp ⟨named2, hm⟩
      have hiff : ∀ n, alist_contains named2 n = true ↔
          (alist_contains named n = true ∨ n ∈ page_inline_names r c pc) := by
        intro n
        rw [merge_contains pr.2 named named2 hm n, Bool.or_eq_true]
        apply or_congr Iff.rfl
        rw [list_contains_iff, ← alist_contains_iff_mem, hprc n, list_contains_iff]
      refine ⟨?_, ?_⟩
      · intro n hn hcn
        have hc2 : alist_contains pr.2 n = true := by
          rw [hprc n]
          exact (list_contains_iff _ n).mpr hn
        have hmem := (alist_contains_iff_mem pr.2 n).mp hc2
        obtain ⟨p, hp, hpe⟩ := List.mem_map.mp hmem
        have := hmerge.2 p hp
        rw [hpe] at this
        rw [hcn] at this
        cases this
      · exact (pages_addable_congr r c rest _ _ hiff).mp ((ih h.2 _ named2).mp ⟨b, hb2⟩)
    · rintro ⟨h1, h2⟩
      have hfresh : ∀ p ∈ pr.2, alist_contains named p.1 = false := by
        intro p hp
        have hmem : p.1 ∈ pr.2.map Prod.fst := List.mem_map_of_mem Prod.fst hp
        have hc2 : alist_contains pr.2 p.1 = true := (alist_contains_iff_mem _ _).mpr hmem
        rw [hprc p.1, list_contains_iff] at hc2
        have hnot := h1 p.1 hc2
        cases hcc : alist_contains named p.1
        · rfl
        · exact absurd hcc hnot
      obtain ⟨named2, hm⟩ := (merge_ok_iff pr.2 named).mpr ⟨hprn, hfresh⟩
      have hiff : ∀ n, alist_contains named2 n = true ↔
          (alist_contains named n = true ∨ n ∈ page_inline_names r c pc) := by
        intro n
        rw [merge_contains pr.2 named named2 hm n, Bool.or_eq_true]
        apply or_congr Iff.rfl
        rw [list_contains_iff, ← alist_contains_iff_mem, hprc n, list_contains_iff]
      obtain ⟨b, hb2⟩ := (ih h.2 (alist_insert pages pc.name pr.1) named2).mpr
        ((pages_addable_congr r c rest _ _ hiff).mpr h2)
      refine ⟨b, ?_⟩
      rw [cres_bind_ok]
      exact ⟨named2, hm, hb2⟩

/-- A key bound before `build_pages` keeps its binding. -/
theorem bp_named_preserved (r c : Nat) (pcs : List PageConfig) :
    ∀ pages named b, build_pages r c pcs pages named = .ok b → ∀ n,
      alist_contains named n = true →
        alist_find? b.2 n = alist_find? named n ∧ alist_contains b.2 n = true := by
  induction pcs with
  | nil =>
    intro pages named b hm n hn
    unfold build_pages at hm
    cases hm
    exact ⟨rfl, hn⟩
  | cons pc rest ih =>
    intro pages named b hm n hn
    unfold build_pages at hm
    rw [cres_bind_ok] at hm
    obtain ⟨pr, hpr, hm2⟩ := hm
    rw [cres_bind_ok] at hm2
    obtain ⟨named2, hmg, hm3⟩ := hm2
    have hc2 : alist_contains named2 n = true := by
      rw [merge_contains pr.2 named named2 hmg n, hn, Bool.true_or]
    have hf2 : alist_find? named2 n = alist_find? named n :=
      merge_find_preserved pr.2 named named2 hmg n hn
    obtain ⟨ha, hb2⟩ := ih _ _ _ hm3 n hc2
    exact ⟨ha.trans hf2, hb2⟩

/-- The page registry a successful `build_pages` produces holds exactly
the accumulated and the configured page names. -/
theorem bp_pages (r c : Nat) (pcs : List PageConfig) :
    ∀ pages named b, build_pages r c pcs pages named = .ok b → ∀ n,
      alist_contains b.1 n =
        (alist_contains pages n || (pcs.map (fun pc => pc.name)).contains n) := by
  induction pcs with
  | nil =>
    intro pages named b hm n
    unfold build_pages at hm
    cases hm
    simp
  | cons pc rest ih =>
    intro pages named b hm n
    unfold build_pages at hm
    rw [cres_bind_ok] at hm
    obtain ⟨pr, hpr, hm2⟩ := hm
    rw [cres_bind_ok] at hm2
    obtain ⟨named2, hmg, hm3⟩ := hm2
    rw [ih _ _ _ hm3 n, alist_contains_insert]
    rw [List.map_cons, List.contains_cons]
    by_cases hn : n = pc.name
    · rw [if_pos hn]
      have hnb : (n == pc.name) = true := by simpa using hn
      rw [hnb]
      simp
    · rw [if_neg hn]
      have hnb : (n == pc.name) = false := by simpa using hn
      rw [hnb]
      simp

/-- Inverting a successful `AppState::from_config` into its stages. -/
theorem from_config_ok_inv (r c : Nat) (config : Config) (s : AppState)
    (hs : AppState.from_config r c config = .ok s) :
    ∃ defaults named0 built,
      Defaults.from_config config.defaults = .ok defaults ∧
      build_named_buttons
        (match config.buttons with
         | some l => l
         | none => []) [] = .ok named0 ∧
      build_pages r c config.pages []
        (if alist_contains named0 "empty" then named0
         else alist_insert named0 "empty" empty_setup) = .ok built ∧
      load_default_pages
        { defaults := defaults
          named_buttons := built.2
          pages := built.1
          buttons := List.replicate (r * c) ButtonState.empty
          loaded_pages := []
          device_rows := r
          device_cols := c
          init_handler := config.init_script.map EventHandler.from_config
          foreground_window := none }
        (match config.default_pages with
         | some l => l
         | none => []) = .ok s := by
  unfold AppState.from_config at hs
  rw [cres_bind_ok] at hs
  obtain ⟨defaults, hdef, hs⟩ := hs
  rw [cres_bind_ok] at hs
  obtain ⟨named0, hbn, hs⟩ := hs
  rw [cres_bind_ok] at hs
  obtain ⟨named1, hstep, hs⟩ := hs
  rw [cres_bind_ok] at hs
  obtain ⟨built, hbp, hld⟩ := hs
  rw [empty_setup_builds] at hstep
  by_cases he : alist_contains named0 "empty" = true
  · rw [if_pos he] at hstep
    cases hstep
    refine ⟨defaults, named0, built, hdef, hbn, ?_, hld⟩
    rw [if_pos he]
    exact hbp
  · rw [if_neg he] at hstep
    dsimp only at hstep
    cases hstep
    refine ⟨defaults, named0, built, hdef, hbn, ?_, hld⟩
    rw [if_neg he]
    exact hbp

/-- Assembling a successful `AppState::from_config` from its stages. -/
theorem from_config_ok_build (r c : Nat) (config : Config)
    (defaults : Defaults) (named0 : List (String × ButtonSetup))
    (built : List (String × Page) × List (String × ButtonSetup)) (s2 : AppState)
    (hdef : Defaults.from_config config.defaults = .ok defaults)
    (hbn : build_named_buttons
      (match config.buttons with
       | some l => l
       | none => []) [] = .ok named0)
    (hbp : build_pages r c config.pages []
      (if alist_contains named0 "empty" then named0
       else alist_insert named0 "empty" empty_setup) = .ok built)
    (hld : load_default_pages
      { defaults := defaults
        named_buttons := built.2
        pages := built.1
        buttons := List.replicate (r * c) ButtonState.empty
        loaded_pages := []
        device_rows := r
        device_cols := c
        init_handler := config.init_script.map EventHandler.from_config
        foreground_window := none }
      (match config.default_pages with
       | some l => l
       | none => []) = .ok s2) :
    AppState.from_config r c config = .ok s2 := by
  unfold AppState.from_config
  rw [hdef, cres_bind_ok_left, hbn, cres_bind_ok_left, empty_setup_builds]
  by_cases he : alist_contains named0 "empty" = true
  · rw [if_pos he] at hbp
    rw [if_pos he, cres_bind_ok_left, hbp, cres_bind_ok_left]
    exact hld
  · rw [if_neg he] at hbp
    rw [if_neg he]
    dsimp only
    rw [cres_bind_ok_left, hbp, cres_bind_ok_left]
    exact hld

/-- The per-page map of a successfully built page holds exactly the
page's inline names. -/
theorem pfc_contains (r c : Nat) (pc : PageConfig)
    (pr : Page × List (String × ButtonSetup))
    (hpr : Page.from_config_with_named_buttons r c pc = .ok pr) :
    ∀ n, alist_contains pr.2 n = (page_inline_names r c pc).contains n := by
  unfold Page.from_config_with_named_buttons at hpr
  dsimp only at hpr
  rw [cres_bind_ok] at hpr
  obtain ⟨x, hx, heq⟩ := hpr
  cases heq
  intro n
  rw [page_inline_names_eq]
  exact pb_contains pc.name r c pc.buttons [] [] x hx n

/-- A successful `build_pages` run means no page reused a name already
taken when the run started. -/
theorem bp_taken_avoided (r c : Nat) (pcs : List PageConfig) (k : String) :
    ∀ pages named b, build_pages r c pcs pages named = .ok b →
      alist_contains named k = true →
      ∀ pc ∈ pcs, ¬k ∈ page_inline_names r c pc := by
  induction pcs with
  | nil =>
    intro pages named b _ _ pc hpc
    cases hpc
  | cons pc rest ih =>
    intro pages named b hm hk pc2 hpc2
    unfold build_pages at hm
    rw [cres_bind_ok] at hm
    obtain ⟨pr, hpr, hm2⟩ := hm
    rw [cres_bind_ok] at hm2
    obtain ⟨named2, hmg, hm3⟩ := hm2
    rcases List.mem_cons.mp hpc2 with he | hr
    · subst he
      intro hkin
      have hc2 : alist_contains pr.2 k = true := by
        rw [pfc_contains r c pc2 pr hpr k]
        exact (list_contains_iff _ k).mpr hkin
      have hmem := (alist_contains_iff_mem pr.2 k).mp hc2
      obtain ⟨p, hp, hpe⟩ := List.mem_map.mp hmem
      have hfresh := ((merge_ok_iff pr.2 named).mp ⟨named2, hmg⟩).2 p hp
      rw [hpe, hk] at hfresh
      cases hfresh
    · have hk2 : alist_contains named2 k = true := by
        rw [merge_contains pr.2 named named2 hmg k, hk, Bool.true_or]
      exact ih _ _ _ hm3 hk2 pc2 hr

/-- Every inline name of every page ends registered after a successful
`build_pages`. -/
theorem bp_contains_new (r c : Nat) (pcs : List PageConfig) :
    ∀ pages named b, build_pages r c pcs pages named = .ok b →
      ∀ pc ∈ pcs, ∀ n ∈ page_inline_names r c pc,
        alist_contains b.2 n = true := by
  induction pcs with
  | nil =>
    intro pages named b _ pc hpc
    cases hpc
  | cons pc rest ih =>
    intro pages named b hm pc2 hpc2 n hn
    unfold build_pages at hm
    rw [cres_bind_ok] at hm
    obtain ⟨pr, hpr, hm2⟩ := hm
    rw [cres_bind_ok] at hm2
    obtain ⟨named2, hmg, hm3⟩ := hm2
    rcases List.mem_cons.mp hpc2 with he | hr
    · subst he
      have hc2 : alist_contains pr.2 n = true := by
        rw [pfc_contains r c pc2 pr hpr n]
        exact (list_contains_iff _ n).mpr hn
      have hmem := (alist_contains_iff_mem pr.2 n).mp hc2
      have hk2 : alist_contains named2 n = true := by
        rw [merge_contains pr.2 named named2 hmg n, Bool.or_eq_true]
        right
        exact (list_contains_iff _ n).mpr hmem
      exact (bp_named_preserved r c rest _ _ _ hm3 n hk2).2
    · exact ih _ _ _ hm3 pc2 hr n hn

/-- Unpacking `config_colors_ok` into the stage-level facts. -/
theorem config_colors_ok_parts (config : Config) (h : config_colors_ok config = true) :
    (match config.defaults with
     | none => true
     | some d =>
       color_ok d.background_color && color_ok d.label_color &&
         color_ok d.superlabel_color && color_ok d.sublabel_color) = true ∧
    (∀ bc ∈ (match config.buttons with
             | some l => l
             | none => []),
      ∃ st, ButtonSetup.from_config_with_name bc = .ok st) ∧
    (config.pages.all (fun pc => page_buttons_colors_ok pc.buttons)) = true := by
  unfold config_colors_ok at h
  dsimp only at h
  rw [Bool.and_eq_true, Bool.and_eq_true] at h
  obtain ⟨⟨h1, h2⟩, h3⟩ := h
  refine ⟨h1, ?_, h3⟩
  intro bc hbc
  have hf := List.all_eq_true.mp h2 bc hbc
  simp only [Bool.and_eq_true] at hf
  exact named_setup_build_ok bc hf.1 hf.2

/-- Every default page name is a configured page name. -/
theorem default_pages_mem (config : Config) (h : default_pages_exist config = true) :
    ∀ n ∈ (match config.default_pages with
           | some l => l
           | none => []),
      (config.pages.map (fun pc => pc.name)).contains n = true := by
  unfold default_pages_exist at h
  dsimp only at h
  intro n hn
  have := List.all_eq_true.mp h n hn
  simpa using this

/-- The keys of the explicit registry are the explicit names. -/
theorem explicit_names_contains (config : Config) (named0 : List (String × ButtonSetup))
    (hbn : build_named_buttons
      (match config.buttons with
       | some l => l
       | none => []) [] = .ok named0)
    (n : String) :
    alist_contains named0 n = true ↔ n ∈ explicit_names config := by
  rw [bn_contains _ _ _ hbn n]
  rw [show alist_contains ([] : List (String × ButtonSetup)) n = false from rfl,
    Bool.false_or, list_contains_iff]
  exact Iff.rfl

/-- The keys present after the `"empty"` synthesis step: the explicit
names plus the reserved name. -/
theorem named1_contains_iff (config : Config) (named0 : List (String × ButtonSetup))
    (hbn : build_named_buttons
      (match config.buttons with
       | some l => l
       | none => []) [] = .ok named0)
    (n : String) :
    alist_contains
      (if alist_contains named0 "empty" then named0
       else alist_insert named0 "empty" empty_setup) n = true ↔
      (n ∈ explicit_names config ∨ n = "empty") := by
  by_cases he : alist_contains named0 "empty" = true
  · rw [if_pos he, explicit_names_contains config named0 hbn n]
    constructor
    · exact Or.inl
    · rintro (h | h)
      · exact h
      · subst h
        exact (explicit_names_contains config named0 hbn "empty").mp he
  · rw [if_neg he, alist_contains_insert]
    by_cases hn : n = "empty"
    · rw [if_pos hn]
      exact ⟨fun _ => Or.inr hn, fun _ => rfl⟩
    · rw [if_neg hn, explicit_names_contains config named0 hbn n]
      constructor
      · exact Or.inl
      · rintro (h | h)
        · exact h
        · exact absurd h hn

/-- Reducing a bind of a failure. -/
theorem cres_bind_err_left {α β : Type} (e : Error) (f : α → CRes β) :
    CRes.bind (.err e) f = .err e := rfl

/-- C4 (corrected): under resolvable colors and existing default pages,
`AppState::from_config` succeeds exactly when the explicitly declared
names are pairwise distinct, every page-introduced name avoids the
explicit names and the reserved `"empty"`, and the name sets introduced
by distinct pages are pairwise disjoint — two like-named inline buttons
inside a single page are NOT rejected (the per-page map silently keeps
the last); every violation yields a `DuplicateNamedButton` error; and on
success every declared name resolves in the registry. -/
theorem c4_duplicate_names (r c : Nat) (config : Config)
    (hcol : config_colors_ok config = true)
    (hdp : default_pages_exist config = true) :
    ((∃ s, AppState.from_config r c config = .ok s) ↔ names_unique r c config) ∧
    (¬names_unique r c config →
      ∃ n, AppState.from_config r c config = .err (.DuplicateNamedButton n)) ∧
    (∀ s, AppState.from_config r c config = .ok s →
      ∀ n, (n ∈ explicit_names config ∨
            ∃ pc ∈ config.pages, n ∈ page_inline_names r c pc) →
        (alist_find? s.named_buttons n).isSome = true) := by
  obtain ⟨hd, hsetups, hpcolors⟩ := config_colors_ok_parts config hcol
  have hmain : (∃ s, AppState.from_config r c config = .ok s) ↔
      names_unique r c config := by
    constructor
    · rintro ⟨s, hs⟩
      obtain ⟨defaults, named0, built, hdef, hbn, hbp, hld⟩ :=
        from_config_ok_inv r c config s hs
      have hnod := ((bn_ok_iff _ hsetups []).mp ⟨named0, hbn⟩).1
      have haddable := (bp_ok_iff r c config.pages hpcolors [] _).mp ⟨built, hbp⟩
      have haddable2 := (pages_addable_congr r c config.pages _ _
        (named1_contains_iff config named0 hbn)).mp haddable
      obtain ⟨hav, hpw⟩ := (pages_addable_iff r c config.pages _).mp haddable2
      unfold names_unique
      refine ⟨hnod, ?_, hpw⟩
      intro pc hpc n hn
      have hnot := hav pc hpc n hn
      exact ⟨fun hx => hnot (Or.inl hx), fun hx => hnot (Or.inr hx)⟩
    · intro hnu
      unfold names_unique at hnu
      obtain ⟨hnod, hav, hpw⟩ := hnu
      obtain ⟨defaults, hdef⟩ := defaults_build_ok config.defaults hd
      obtain ⟨named0, hbn⟩ := (bn_ok_iff _ hsetups []).mpr ⟨hnod, fun bc _ => rfl⟩
      have haddable2 : pages_addable r c
          (fun n => n ∈ explicit_names config ∨ n = "empty") config.pages :=
        (pages_addable_iff r c config.pages _).mpr
          ⟨fun pc hpc n hn hor => by
            rcases hor with hx | hx
            · exact (hav pc hpc n hn).1 hx
            · exact (hav pc hpc n hn).2 hx, hpw⟩
      have haddable := (pages_addable_congr r c config.pages _ _
        (named1_contains_iff config named0 hbn)).mpr haddable2
      obtain ⟨built, hbp⟩ := (bp_ok_iff r c config.pages hpcolors [] _).mpr haddable
      obtain ⟨s2, hld⟩ := ld_ok
        (match config.default_pages with
         | some l => l
         | none => [])
        { defaults := defaults
          named_buttons := built.2
          pages := built.1
          buttons := List.replicate (r * c) ButtonState.empty
          loaded_pages := []
          device_rows := r
          device_cols := c
          init_handler := config.init_script.map EventHandler.from_config
          foreground_window := none }
        (by
          intro n hn
          have hmem := default_pages_mem config hdp n hn
          show alist_contains built.1 n = true
          rw [bp_pages r c config.pages [] _ built hbp n,
            show alist_contains ([] : List (String × Page)) n = false from rfl,
            Bool.false_or]
          exact hmem)
      exact ⟨s2, from_config_ok_build r c config defaults named0 built s2
        hdef hbn hbp hld⟩
  refine ⟨hmain, ?_, ?_⟩
  · intro hnu
    obtain ⟨defaults, hdef⟩ := defaults_build_ok config.defaults hd
    rcases bn_shape _ hsetups [] with ⟨named0, hbn⟩ | ⟨n, hbnerr⟩
    · rcases bp_shape r c config.pages hpcolors []
        (if alist_contains named0 "empty" then named0
         else alist_insert named0 "empty" empty_setup) with ⟨built, hbp⟩ | ⟨n, hbperr⟩
      · exfalso
        apply hnu
        have hnod := ((bn_ok_iff _ hsetups []).mp ⟨named0, hbn⟩).1
        have haddable := (bp_ok_iff r c config.pages hpcolors [] _).mp ⟨built, hbp⟩
        have haddable2 := (pages_addable_congr r c config.pages _ _
          (named1_contains_iff config named0 hbn)).mp haddable
        obtain ⟨hav, hpw⟩ := (pages_addable_iff r c config.pages _).mp haddable2
        unfold names_unique
        refine ⟨hnod, ?_, hpw⟩
        intro pc hpc n hn
        have hnot := hav pc hpc n hn
        exact ⟨fun hx => hnot (Or.inl hx), fun hx => hnot (Or.inr hx)⟩
      · refine ⟨n, ?_⟩
        unfold AppState.from_config
        rw [hdef, cres_bind_ok_left, hbn, cres_bind_ok_left, empty_setup_builds]
        by_cases he : alist_contains named0 "empty" = true
        · rw [if_pos he] at hbperr
          rw [if_pos he, cres_bind_ok_left, hbperr, cres_bind_err_left]
        · rw [if_neg he] at hbperr
          rw [if_neg he]
          dsimp only
          rw [cres_bind_ok_left, hbperr, cres_bind_err_left]
    · refine ⟨n, ?_⟩
      unfold AppState.from_config
      rw [hdef, cres_bind_ok_left, hbnerr, cres_bind_err_left]
  · intro s hs n hdecl
    obtain ⟨defaults, named0, built, hdef, hbn, hbp, hld⟩ :=
      from_config_ok_inv r c config s hs
    have hnb : s.named_buttons = built.2 := (ld_preserved _ _ _ hld).1
    have hcontains : alist_contains built.2 n = true := by
      rcases hdecl with hx | ⟨pc, hpc, hn⟩
      · have h1 : alist_contains
            (if alist_contains named0 "empty" then named0
             else alist_insert named0 "empty" empty_setup) n = true :=
          (named1_contains_iff config named0 hbn n).mpr (Or.inl hx)
        exact (bp_named_preserved r c config.pages [] _ built hbp n h1).2
      · exact bp_contains_new r c config.pages [] _ built hbp pc hpc n hn
    rw [hnb]
    exact hcontains

/-- C9 (corrected): every successfully constructed registry contains
`"empty"`; success moreover implies that no page declared an inline
button resolving to `"empty"` (such a page collides with the already
synthesized or explicit entry and construction fails with
`DuplicateNamedButton`); when `"empty"` is not an explicitly declared
name, the registered setup is the synthesized plain black one; when it
is, the explicitly configured setup is the one registered. -/
theorem c9_empty_reserved (r c : Nat) (config : Config) :
    ∀ s, AppState.from_config r c config = .ok s →
      alist_contains s.named_buttons "empty" = true ∧
      (∀ pc ∈ config.pages, ¬"empty" ∈ page_inline_names r c pc) ∧
      (¬"empty" ∈ explicit_names config →
        alist_find? s.named_buttons "empty" = some empty_setup) ∧
      ("empty" ∈ explicit_names config →
        ∃ bc ∈ (match config.buttons with
                | some l => l
                | none => []),
          bc.name = "empty" ∧
          ∃ st, ButtonSetup.from_config_with_name bc = .ok st ∧
            alist_find? s.named_buttons "empty" = some st) := by
  intro s hs
  obtain ⟨defaults, named0, built, hdef, hbn, hbp, hld⟩ :=
    from_config_ok_inv r c config s hs
  have hnb : s.named_buttons = built.2 := (ld_preserved _ _ _ hld).1
  have hc1 : alist_contains
      (if alist_contains named0 "empty" then named0
       else alist_insert named0 "empty" empty_setup) "empty" = true := by
    by_cases he : alist_contains named0 "empty" = true
    · rw [if_pos he]
      exact he
    · rw [if_neg he, alist_contains_insert, if_pos rfl]
  obtain ⟨hfind, hcont⟩ :=
    bp_named_preserved r c config.pages [] _ built hbp "empty" hc1
  refine ⟨?_, ?_, ?_, ?_⟩
  · rw [hnb]
    exact hcont
  · exact bp_taken_avoided r c config.pages "empty" [] _ built hbp hc1
  · intro hne
    have he : alist_contains named0 "empty" = false := by
      cases hcc : alist_contains named0 "empty"
      · rfl
      · exact absurd ((explicit_names_contains config named0 hbn "empty").mp hcc) hne
    rw [hnb, hfind, if_neg (by simp [he]), alist_find?_insert, if_pos rfl]
  · intro hin
    obtain ⟨bc, hbc, hbce⟩ := List.mem_map.mp hin
    obtain ⟨st, hst, hstf⟩ := bn_find_new _ bc [] named0 hbn hbc
    refine ⟨bc, hbc, hbce, st, hst, ?_⟩
    have he : alist_contains named0 "empty" = true := by
      unfold alist_contains
      rw [← hbce, hstf]
      rfl
    rw [hnb, hfind, if_pos he, ← hbce]
    exact hstf

/-- C4 counterexample: a configuration whose single page declares two
inline buttons both named `"x"` — two named buttons sharing one name —
yet construction succeeds, because the per-page map silently keeps the
last like-named inline button instead of rejecting the duplicate. -/
theorem c4_counterexample :
    page_inline_names 1 2 dup_in_page = ["x", "x"] ∧
    (AppState.from_config 1 2 dup_in_page_config).isOk = true := ⟨rfl, rfl⟩

/-- C4 witness: the bare configuration discharges both hypotheses, its
name discipline holds, and construction indeed succeeds. -/
theorem c4_witness :
    config_colors_ok bare_config = true ∧ default_pages_exist bare_config = true ∧
    (∃ s, AppState.from_config 1 1 bare_config = .ok s) :=
  ⟨by decide, by decide,
    (c4_duplicate_names 1 1 bare_config (by decide) (by decide)).1.mpr
      (by simp [names_unique, explicit_names, bare_config])⟩

/-- C9 counterexample: a page-inline button named `"empty"` does not
override the synthesized entry — construction fails with
`DuplicateNamedButton "empty"`. -/
theorem c9_counterexample :
    page_inline_names 1 1 inline_empty_page = ["empty"] ∧
    AppState.from_config 1 1 inline_empty_config =
      .err (.DuplicateNamedButton "empty") := ⟨rfl, rfl⟩

/-- C9 witness: on the bare configuration the constructed registry
contains `"empty"` bound to the synthesized setup. -/
theorem c9_witness :
    alist_contains bare_state.named_buttons "empty" = true ∧
    alist_find? bare_state.named_buttons "empty" = some empty_setup :=
  have h := c9_empty_reserved 1 1 bare_config bare_state rfl
  ⟨h.1, h.2.2.1 (by decide)⟩

end StreamDeck

